import Mathlib

/-!
Verification development for the resilience core of the ydb-go-sdk client
driver: error classification, the retry loop with session leasing and
backoff, the public error-introspection helpers (`src/errors.go`), and the
stack codegen tool (`src/unnamed/part_000`).

The retry loop, classifier, session bookkeeping and the internal errors
package are not part of the visible sources (only their tests are), so those
definitions are modelled from the specification; `IsTransportError`,
`IsOperationError`, the AST walk and `format`/`main` of the codegen tool are
translated directly from the source files.
-/

namespace YdbSdk

/-- Modelled from the spec: transport-layer reason codes carried by a
`TransportError` (internal/errors is not under the visible sources; the
enumeration follows the constants used by the visible tests). -/
inductive TransportReason where
  | unknownCode
  | canceled
  | unknown
  | invalidArgument
  | deadlineExceeded
  | notFound
  | alreadyExists
  | permissionDenied
  | resourceExhausted
  | failedPrecondition
  | aborted
  | outOfRange
  | unimplemented
  | internalReason
  | unavailable
  | dataLoss
  | unauthenticated
deriving DecidableEq, Repr

/-- Modelled from the spec: numeric code of a transport reason
(`int32(t.Reason)` in `src/errors.go`). -/
def TransportReason.code : TransportReason → Int
  | .unknownCode => 0
  | .canceled => 1
  | .unknown => 2
  | .invalidArgument => 3
  | .deadlineExceeded => 4
  | .notFound => 5
  | .alreadyExists => 6
  | .permissionDenied => 7
  | .resourceExhausted => 8
  | .failedPrecondition => 9
  | .aborted => 10
  | .outOfRange => 11
  | .unimplemented => 12
  | .internalReason => 13
  | .unavailable => 14
  | .dataLoss => 15
  | .unauthenticated => 16

/-- Modelled from the spec: the human-readable name of a transport reason
(`t.Reason.String()` in `src/errors.go`). -/
def TransportReason.name : TransportReason → String
  | .unknownCode => "unknown code"
  | .canceled => "canceled"
  | .unknown => "unknown"
  | .invalidArgument => "invalid argument"
  | .deadlineExceeded => "deadline exceeded"
  | .notFound => "not found"
  | .alreadyExists => "already exists"
  | .permissionDenied => "permission denied"
  | .resourceExhausted => "resource exhausted"
  | .failedPrecondition => "failed precondition"
  | .aborted => "aborted"
  | .outOfRange => "out of range"
  | .unimplemented => "unimplemented"
  | .internalReason => "internal"
  | .unavailable => "unavailable"
  | .dataLoss => "data loss"
  | .unauthenticated => "unauthenticated"

/-- Modelled from the spec: application-level status codes carried by an
`OpError` (operation failure inside a successfully transported response). -/
inductive StatusCode where
  | unknownStatus
  | badRequest
  | unauthorized
  | internalError
  | aborted
  | unavailable
  | overloaded
  | schemeError
  | genericError
  | timeout
  | badSession
  | preconditionFailed
  | alreadyExists
  | notFound
  | sessionExpired
  | cancelled
  | undetermined
  | unsupported
  | sessionBusy
deriving DecidableEq, Repr

/-- Modelled from the spec: numeric code of an operation status
(`int32(o.Reason)` in `src/errors.go`); values follow the YDB status ids. -/
def StatusCode.code : StatusCode → Int
  | .unknownStatus => 0
  | .badRequest => 400010
  | .unauthorized => 400020
  | .internalError => 400030
  | .aborted => 400040
  | .unavailable => 400050
  | .overloaded => 400060
  | .schemeError => 400070
  | .genericError => 400080
  | .timeout => 400090
  | .badSession => 400100
  | .preconditionFailed => 400120
  | .alreadyExists => 400130
  | .notFound => 400140
  | .sessionExpired => 400150
  | .cancelled => 400160
  | .undetermined => 400170
  | .unsupported => 400180
  | .sessionBusy => 400190

/-- Modelled from the spec: the human-readable name of an operation status
(`o.Reason.String()` in `src/errors.go`). -/
def StatusCode.name : StatusCode → String
  | .unknownStatus => "unknown status"
  | .badRequest => "bad request"
  | .unauthorized => "unauthorized"
  | .internalError => "internal error"
  | .aborted => "aborted"
  | .unavailable => "unavailable"
  | .overloaded => "overloaded"
  | .schemeError => "scheme error"
  | .genericError => "generic error"
  | .timeout => "timeout"
  | .badSession => "bad session"
  | .preconditionFailed => "precondition failed"
  | .alreadyExists => "already exists"
  | .notFound => "not found"
  | .sessionExpired => "session expired"
  | .cancelled => "cancelled"
  | .undetermined => "undetermined"
  | .unsupported => "unsupported"
  | .sessionBusy => "session busy"

/-- Modelled from the spec: a Go error value as seen by the retry core — a
tagged union with an explicit kind and a cause link for wrapping
(`fmt.Errorf("...: %w", err)` produces a `wrap` node; `errors.New`, `io.EOF`
and the context errors are `simple` leaves). -/
inductive GoError where
  | transportError (reason : TransportReason)
  | opError (reason : StatusCode)
  | simple (msg : String)
  | wrap (msg : String) (cause : GoError)
deriving DecidableEq, Repr

/-- Modelled from the spec: Go's `context.Canceled` sentinel error. -/
def contextCanceled : GoError := .simple "context canceled"

/-- Modelled from the spec: Go's `context.DeadlineExceeded` sentinel error. -/
def contextDeadlineExceeded : GoError := .simple "context deadline exceeded"

/-- Modelled from the spec: `errors.Unwrap` — only a wrapping layer exposes a
cause; leaf failures unwrap to nothing. -/
def unwrapErr : GoError → Option GoError
  | .wrap _ cause => some cause
  | _ => none

/-- Modelled from the spec: Go's `errors.Is` — unwrap-aware equality; the
target matches if it equals the error or any error in its unwrap chain. -/
def errorsIs : GoError → GoError → Bool
  | .wrap m c, target => (if GoError.wrap m c = target then true else errorsIs c target)
  | e, target => (if e = target then true else false)

/-- The unwrap chain of an error: the error itself followed by all its
causes, ending at the leaf failure. -/
def chain : GoError → List GoError
  | .wrap m c => .wrap m c :: chain c
  | e => [e]

/-- The innermost (leaf) error of the unwrap chain. -/
def chainLeaf : GoError → GoError
  | .wrap _ c => chainLeaf c
  | e => e

/-- Modelled from the spec: Go's `errors.As` specialised to
`**errors.TransportError` — walks the unwrap chain and yields the reason of
the first transport failure found, if any. -/
def asTransport : GoError → Option TransportReason
  | .transportError r => some r
  | .wrap _ c => asTransport c
  | _ => none

/-- Modelled from the spec: Go's `errors.As` specialised to
`**errors.OpError` — walks the unwrap chain and yields the status of the
first operation failure found, if any. -/
def asOp : GoError → Option StatusCode
  | .opError s => some s
  | .wrap _ c => asOp c
  | _ => none

/-- Translated from `src/errors.go` `IsTransportError`: a `none` argument
models a nil Go error. -/
def IsTransportError : Option GoError → Bool × Int × String
  | none => (false, 0, "")
  | some err =>
    match asTransport err with
    | none => (false, 0, "")
    | some r => (true, r.code, r.name)

/-- Translated from `src/errors.go` `IsOperationError`: a `none` argument
models a nil Go error. -/
def IsOperationError : Option GoError → Bool × Int × String
  | none => (false, 0, "")
  | some err =>
    match asOp err with
    | none => (false, 0, "")
    | some s => (true, s.code, s.name)

/-- Modelled from the spec: the two Backoff Strategy variants — fast
("immediate"/transient) and slow ("congestion"). -/
inductive BackoffKind where
  | fast
  | slow
deriving DecidableEq, Repr

/-- Modelled from the spec: the retry decision produced by the Error
Classifier. -/
inductive RetryDecision where
  | fail
  | retryImmediate
  | retryAfterBackoff (kind : BackoffKind)
  | deleteSessionAndRetry
deriving DecidableEq, Repr

/-- Modelled from the spec: classification of a transport reason.
Congestion (resource exhaustion, service unavailable) waits on the slow
strategy; a genuine conflict (aborted) retries immediately; an internal
hiccup takes a short fast backoff; everything else — malformed input,
permission and authentication failures, unimplemented features, context
cancellation and deadline, unclassified codes — is non-retryable. -/
def classifyTransport (r : TransportReason) : RetryDecision :=
  match r with
  | .resourceExhausted => .retryAfterBackoff .slow
  | .unavailable => .retryAfterBackoff .slow
  | .aborted => .retryImmediate
  | .internalReason => .retryAfterBackoff .fast
  | _ => .fail

/-- Modelled from the spec: classification of an operation status.
Session-fatal statuses (bad session, session expired, session busy) evict
the session and retry with no backoff; congestion (overloaded, unavailable)
waits on the slow strategy; conflicts (aborted, not found) retry
immediately; an undetermined outcome is retryable only for an idempotent
operation; everything else is non-retryable. -/
def classifyStatus (s : StatusCode) (idempotent : Bool) : RetryDecision :=
  match s with
  | .badSession => .deleteSessionAndRetry
  | .sessionExpired => .deleteSessionAndRetry
  | .sessionBusy => .deleteSessionAndRetry
  | .overloaded => .retryAfterBackoff .slow
  | .unavailable => .retryAfterBackoff .slow
  | .aborted => .retryImmediate
  | .notFound => .retryImmediate
  | .undetermined => if idempotent then .retryAfterBackoff .fast else .fail
  | _ => .fail

/-- Modelled from the spec: the Error Classifier — unwraps arbitrarily
nested failures to the innermost Transport or Operation failure and maps its
reason (together with the caller's idempotency declaration) to a decision;
an error containing no such failure is non-retryable. -/
def classify (e : GoError) (idempotent : Bool) : RetryDecision :=
  match chainLeaf e with
  | .transportError r => classifyTransport r
  | .opError s => classifyStatus s idempotent
  | _ => .fail

/-- The SessionFatal error class of the spec: the innermost failure is an
operation failure with status bad session, session expired or session
busy. -/
def SessionFatal (e : GoError) : Bool :=
  match chainLeaf e with
  | .opError .badSession => true
  | .opError .sessionExpired => true
  | .opError .sessionBusy => true
  | _ => false

/-- The Congestion error class of the spec: the innermost failure signals
resource exhaustion, server overload or service unavailability. -/
def Congestion (e : GoError) : Bool :=
  match chainLeaf e with
  | .transportError .resourceExhausted => true
  | .transportError .unavailable => true
  | .opError .overloaded => true
  | .opError .unavailable => true
  | _ => false

/-- The NonRetryable error class of the spec: malformed input,
permission/auth failures, unimplemented features, generic errors, or an
error whose unwrap chain contains no Transport or Operation failure at
all. -/
def NonRetryable (e : GoError) : Bool :=
  match chainLeaf e with
  | .transportError .invalidArgument => true
  | .transportError .permissionDenied => true
  | .transportError .unauthenticated => true
  | .transportError .unimplemented => true
  | .opError .badRequest => true
  | .opError .unauthorized => true
  | .opError .genericError => true
  | .opError .schemeError => true
  | .opError .unsupported => true
  | .transportError _ => false
  | .opError _ => false
  | _ => true

/-- The Ambiguous-outcome error class of the spec: the server cannot say
whether the mutation committed (undetermined result). -/
def Ambiguous (e : GoError) : Bool :=
  match chainLeaf e with
  | .opError .undetermined => true
  | _ => false

/-- Modelled from the spec: a Session — an opaque identifier plus a closed
flag set under a lock by eviction. -/
structure Session where
  id : Nat
  closed : Bool
deriving DecidableEq, Repr

/-- Modelled from the spec: the shared pool inside the Session Provider, as
the list of sessions it owns in lease-preference order. -/
abbrev Pool := List Session

/-- Modelled from the spec: `Provider.Get` — lease the first session that is
not closed (a closed session is never leased again); `none` models pool
exhaustion. -/
def poolGet (p : Pool) : Option Session :=
  p.find? (fun s => !s.closed)

/-- Modelled from the spec: evicting a session sets its closed flag; closing
an already-closed session is a no-op. -/
def poolClose (p : Pool) (i : Nat) : Pool :=
  p.map (fun s => if s.id = i then { s with closed := true } else s)

/-- Observable events of one `Retry` invocation, in chronological order:
handing a session to an operation attempt, returning a session via `Put`,
closing (evicting) a session, and requesting a backoff signal. -/
inductive Event where
  | use (id : Nat) (attempt : Nat)
  | put (id : Nat)
  | close (id : Nat)
  | backoff (kind : BackoffKind) (attempt : Nat)
deriving DecidableEq, Repr

/-- How a `Retry` invocation ended. -/
inductive EndKind where
  | success
  | failed
  | ctxWait
  | noSession
  | fuelOut
deriving DecidableEq, Repr

/-- The outcome of one `Retry` invocation: the chronological event trace,
the returned error (`none` is a nil return), how the loop ended, and the
final pool state. -/
structure RunState where
  events : List Event
  result : Option GoError
  endKind : EndKind
  pool : Pool
deriving Repr

/-- Modelled from the spec: the retry loop (`retryBackoff`).  Each iteration
leases a session, runs the operation (`op attempt sessionId`; `none` is
success), and acts on the classifier's decision: `fail` puts the session
back and returns the error verbatim; `deleteSessionAndRetry` closes the
session without `Put` and retries at once; `retryImmediate` puts the session
back and retries at once; `retryAfterBackoff` puts the session back,
requests the per-attempt backoff signal and races it against the context —
if the context fires first (`ctxFires attempt`) the loop aborts returning
the most recent operation error.  `fuel` bounds the recursion depth of this
embedding; in the code termination comes from context expiry. -/
def retryBackoff (idempotent : Bool) (op : Nat → Nat → Option GoError)
    (ctxFires : Nat → Bool) : Nat → Nat → Pool → RunState
  | 0, _, pool => ⟨[], none, .fuelOut, pool⟩
  | fuel + 1, k, pool =>
    match poolGet pool with
    | none => ⟨[], none, .noSession, pool⟩
    | some s =>
      match op k s.id with
      | none => ⟨[.use s.id k, .put s.id], none, .success, pool⟩
      | some e =>
        match classify e idempotent with
        | .fail => ⟨[.use s.id k, .put s.id], some e, .failed, pool⟩
        | .deleteSessionAndRetry =>
          let r := retryBackoff idempotent op ctxFires fuel (k + 1) (poolClose pool s.id)
          ⟨.use s.id k :: .close s.id :: r.events, r.result, r.endKind, r.pool⟩
        | .retryImmediate =>
          let r := retryBackoff idempotent op ctxFires fuel (k + 1) pool
          ⟨.use s.id k :: .put s.id :: r.events, r.result, r.endKind, r.pool⟩
        | .retryAfterBackoff bk =>
          if ctxFires k then
            ⟨[.use s.id k, .put s.id, .backoff bk k], some e, .ctxWait, pool⟩
          else
            let r := retryBackoff idempotent op ctxFires fuel (k + 1) pool
            ⟨.use s.id k :: .put s.id :: .backoff bk k :: r.events, r.result, r.endKind, r.pool⟩

/-- Whether an event concerns the session with id `i` (backoff requests
concern no session). -/
def eventMentions (i : Nat) : Event → Prop
  | .use j _ => j = i
  | .put j => j = i
  | .close j => j = i
  | .backoff _ _ => False

/-- The operation's attempt `j` on the session with id `i` fails with an
error of the SessionFatal class. -/
def FatalAt (op : Nat → Nat → Option GoError) (j i : Nat) : Prop :=
  ∃ e, op j i = some e ∧ SessionFatal e = true

/-- Some session of the pool carries id `i` and has its closed flag set. -/
def closedFlagSet (p : Pool) (i : Nat) : Prop :=
  ∃ t ∈ p, t.id = i ∧ t.closed = true

/-- Result of a timed `Retry` run: the logical time at which the call
returns, the returned error, and whether the embedding's fuel ran out before
a return was reached. -/
structure TimedResult where
  time : Nat
  result : Option GoError
  fuelOut : Bool
deriving DecidableEq, Repr

/-- Modelled from the spec: the retry loop against a context with absolute
deadline `d`, on a discrete clock.  Context expiry is checked at the top of
every iteration; the operation of attempt `k` runs for `opLat k` ticks but
itself observes the context, so it returns the context's deadline error at
time `d` if the deadline passes first; a backoff wait of `backDur kind k`
ticks races the context, and if the context fires first the loop returns the
most recent operation error at time `d`. -/
def timedRetry (idempotent : Bool) (d : Nat) (opLat : Nat → Nat)
    (opErr : Nat → Option GoError) (backDur : BackoffKind → Nat → Nat) :
    Nat → Nat → Nat → Option GoError → TimedResult
  | 0, _, now, _ => ⟨now, none, true⟩
  | fuel + 1, k, now, last =>
    if d ≤ now then ⟨now, last, false⟩
    else if d < now + opLat k then ⟨d, some contextDeadlineExceeded, false⟩
    else
      match opErr k with
      | none => ⟨now + opLat k, none, false⟩
      | some e =>
        match classify e idempotent with
        | .fail => ⟨now + opLat k, some e, false⟩
        | .deleteSessionAndRetry =>
          timedRetry idempotent d opLat opErr backDur fuel (k + 1) (now + opLat k) (some e)
        | .retryImmediate =>
          timedRetry idempotent d opLat opErr backDur fuel (k + 1) (now + opLat k) (some e)
        | .retryAfterBackoff bk =>
          if d < now + opLat k + backDur bk k then ⟨d, some e, false⟩
          else
            timedRetry idempotent d opLat opErr backDur fuel (k + 1)
              (now + opLat k + backDur bk k) (some e)

/-!
Shallow embedding of the Go AST fragment walked by the codegen tool
(`src/unnamed/part_000`).  Every expression node carries the byte offsets of
its `Pos()` and `End()` (the file-set position lookup is absorbed into the
node).  Statement forms the walk never looks inside (`defer`, `go`, labeled
statements, ...) are collapsed into `otherStmt`.
-/

mutual

inductive AExpr where
  | ident (posOff endOff : Nat) (name : String)
  | selector (posOff endOff : Nat) (x : AExpr) (sel : String)
  | indexE (posOff endOff : Nat) (x : AExpr)
  | star (posOff endOff : Nat) (x : AExpr)
  | binary (posOff endOff : Nat) (x y : AExpr)
  | call (posOff endOff : Nat) (fn : AExpr) (args : AExprList)
  | composite (posOff endOff : Nat) (elts : AExprList)
  | unary (posOff endOff : Nat) (x : AExpr)
  | funcLit (posOff endOff : Nat) (body : AStmtList)
  | basic (posOff endOff : Nat) (lit : String)

inductive AExprList where
  | nil
  | cons (e : AExpr) (rest : AExprList)

inductive AStmt where
  | exprStmt (x : AExpr)
  | returnStmt (results : AExprList)
  | assignStmt (lhs rhs : AExprList)
  | ifStmt (body : AStmtList)
  | switchStmt (body : AStmtList)
  | typeSwitchStmt (body : AStmtList)
  | selectStmt (body : AStmtList)
  | forStmt (body : AStmtList)
  | rangeStmt (body : AStmtList)
  | declStmt (d : AGenDecl)
  | caseClause (body : AStmtList)
  | otherStmt

inductive AStmtList where
  | nil
  | cons (s : AStmt) (rest : AStmtList)

inductive AGenDecl where
  | genDecl (specs : ASpecList)
  | otherDecl

inductive ASpecList where
  | nil
  | cons (s : ASpec) (rest : ASpecList)

inductive ASpec where
  | valueSpec (values : AExprList)
  | otherSpec

end

/-- Byte offset of an expression's `Pos()`. -/
def exprPos : AExpr → Nat
  | .ident p _ _ => p
  | .selector p _ _ _ => p
  | .indexE p _ _ => p
  | .star p _ _ => p
  | .binary p _ _ _ => p
  | .call p _ _ _ => p
  | .composite p _ _ => p
  | .unary p _ _ => p
  | .funcLit p _ _ => p
  | .basic p _ _ => p

/-- Byte offset of an expression's `End()`. -/
def exprEnd : AExpr → Nat
  | .ident _ q _ => q
  | .selector _ q _ _ => q
  | .indexE _ q _ => q
  | .star _ q _ => q
  | .binary _ q _ _ => q
  | .call _ q _ _ => q
  | .composite _ q _ => q
  | .unary _ q _ => q
  | .funcLit _ q _ => q
  | .basic _ q _ => q

mutual

/-- Translated from `getCallExpressionsFromExpr` of `src/unnamed/part_000`:
collects call expressions from an expression, in source append order. -/
def getCallExpressionsFromExpr : AExpr → List AExpr
  | .selector _ _ x _ => getCallExpressionsFromExpr x
  | .indexE _ _ x => getCallExpressionsFromExpr x
  | .star _ _ x => getCallExpressionsFromExpr x
  | .binary _ _ x y => getCallExpressionsFromExpr x ++ getCallExpressionsFromExpr y
  | .call p q fn args =>
    AExpr.call p q fn args :: (getCallExpressionsFromExpr fn ++ getCallsFromExprList args)
  | .composite _ _ elts => getCallsFromExprList elts
  | .unary _ _ x => getCallExpressionsFromExpr x
  | .funcLit _ _ body => getListOfCallExpressionsFromBlockStmt body
  | .ident _ _ _ => []
  | .basic _ _ _ => []

/-- Helper for the `for _, arg := range expr.Args` loops of the source. -/
def getCallsFromExprList : AExprList → List AExpr
  | .nil => []
  | .cons e rest => getCallExpressionsFromExpr e ++ getCallsFromExprList rest

/-- Translated from `getExprFromDeclStmt` of `src/unnamed/part_000` fused
with the caller's `getCallExpressionsFromExpr` loop: a non-`GenDecl`
declaration yields nothing; otherwise the calls of every `ValueSpec` value
are collected in order. -/
def getCallsFromDeclStmt : AGenDecl → List AExpr
  | .genDecl specs => getCallsFromSpecList specs
  | .otherDecl => []

/-- Helper: calls of the value expressions of a spec list, in order. -/
def getCallsFromSpecList : ASpecList → List AExpr
  | .nil => []
  | .cons (.valueSpec vs) rest => getCallsFromExprList vs ++ getCallsFromSpecList rest
  | .cons .otherSpec rest => getCallsFromSpecList rest

/-- Translated from `getCallExpressionsFromStmt` of `src/unnamed/part_000`:
only the statement forms listed in its switch contribute calls (note that a
`case` clause inside a switch body matches none of them and contributes
nothing). -/
def getCallExpressionsFromStmt : AStmt → List AExpr
  | .ifStmt body => getListOfCallExpressionsFromBlockStmt body
  | .switchStmt body => getListOfCallExpressionsFromBlockStmt body
  | .typeSwitchStmt body => getListOfCallExpressionsFromBlockStmt body
  | .selectStmt body => getListOfCallExpressionsFromBlockStmt body
  | .forStmt body => getListOfCallExpressionsFromBlockStmt body
  | .rangeStmt body => getListOfCallExpressionsFromBlockStmt body
  | .declStmt d => getCallsFromDeclStmt d
  | _ => []

/-- Translated from `getListOfCallExpressionsFromBlockStmt` of
`src/unnamed/part_000`: expression, return and assignment statements are
handled inline; everything else goes through `getCallExpressionsFromStmt`. -/
def getListOfCallExpressionsFromBlockStmt : AStmtList → List AExpr
  | .nil => []
  | .cons s rest =>
    (match s with
     | .exprStmt x => getCallExpressionsFromExpr x
     | .returnStmt results => getCallsFromExprList results
     | .assignStmt _ rhs => getCallsFromExprList rhs
     | s' => getCallExpressionsFromStmt s') ++ getListOfCallExpressionsFromBlockStmt rest

end

/-- Translated from `utils.FunctionIDArg`: the byte offsets of the single
argument of a `stack.FunctionID` call. -/
structure FunctionIDArg where
  argPos : Nat
  argEnd : Nat
deriving DecidableEq, Repr

/-- The per-call test of `format`: a call whose `Fun` is a selector named
`FunctionID` on the identifier `stack`, with exactly one argument, yields
that argument's offsets. -/
def functionIDArgOf : AExpr → Option FunctionIDArg
  | .call _ _ (.selector _ _ (.ident _ _ pk) sel) (.cons a .nil) =>
    if sel = "FunctionID" ∧ pk = "stack" then some ⟨exprPos a, exprEnd a⟩ else none
  | _ => none

/-- A top-level declaration of a parsed file: only function declarations are
walked by `format`. -/
inductive TopDecl where
  | funcDecl (name : String) (body : AStmtList)
  | otherDecl

/-- The `for _, f := range file.Decls` loop of `format`: all
`stack.FunctionID` argument positions found in the bodies of the file's
function declarations, in order. -/
def collectFunctionIDArgs : List TopDecl → List FunctionIDArg
  | [] => []
  | .funcDecl _ body :: rest =>
    (getListOfCallExpressionsFromBlockStmt body).filterMap functionIDArgOf
      ++ collectFunctionIDArgs rest
  | .otherDecl :: rest => collectFunctionIDArgs rest

/-- Translated from `format` of `src/unnamed/part_000`.  `fixSource` stands
for `utils.FixSource` (not under the visible sources): `Except.ok` is its
`(fixed, nil)` return, `Except.error` its `(nil, err)` return.  When no
argument was collected, the input bytes are returned unchanged with a nil
error. -/
def format (fixSource : List Nat → List FunctionIDArg → Except String (List Nat))
    (src : List Nat) (file : List TopDecl) : Except String (List Nat) :=
  let listOfArgs := collectFunctionIDArgs file
  if listOfArgs ≠ [] then fixSource src listOfArgs else Except.ok src

mutual

/-- Whether an expression contains, anywhere inside it, a call of the form
`stack.FunctionID(arg)` with exactly one argument — the full-tree notion of
containment used to state the claim, independent of the partial walk
performed by the tool. -/
def exprHasStackCall : AExpr → Bool
  | .ident _ _ _ => false
  | .basic _ _ _ => false
  | .selector _ _ x _ => exprHasStackCall x
  | .indexE _ _ x => exprHasStackCall x
  | .star _ _ x => exprHasStackCall x
  | .binary _ _ x y => exprHasStackCall x || exprHasStackCall y
  | .unary _ _ x => exprHasStackCall x
  | .composite _ _ elts => exprListHasStackCall elts
  | .funcLit _ _ body => stmtListHasStackCall body
  | .call p q fn args =>
    (functionIDArgOf (.call p q fn args)).isSome || exprHasStackCall fn
      || exprListHasStackCall args

/-- List version of `exprHasStackCall`. -/
def exprListHasStackCall : AExprList → Bool
  | .nil => false
  | .cons e rest => exprHasStackCall e || exprListHasStackCall rest

/-- Whether a statement contains a `stack.FunctionID(arg)` call anywhere. -/
def stmtHasStackCall : AStmt → Bool
  | .exprStmt x => exprHasStackCall x
  | .returnStmt results => exprListHasStackCall results
  | .assignStmt lhs rhs => exprListHasStackCall lhs || exprListHasStackCall rhs
  | .ifStmt body => stmtListHasStackCall body
  | .switchStmt body => stmtListHasStackCall body
  | .typeSwitchStmt body => stmtListHasStackCall body
  | .selectStmt body => stmtListHasStackCall body
  | .forStmt body => stmtListHasStackCall body
  | .rangeStmt body => stmtListHasStackCall body
  | .declStmt d => declHasStackCall d
  | .caseClause body => stmtListHasStackCall body
  | .otherStmt => false

/-- List version of `stmtHasStackCall`. -/
def stmtListHasStackCall : AStmtList → Bool
  | .nil => false
  | .cons s rest => stmtHasStackCall s || stmtListHasStackCall rest

/-- Whether a declaration statement contains a `stack.FunctionID(arg)` call
anywhere in its value expressions. -/
def declHasStackCall : AGenDecl → Bool
  | .genDecl specs => specListHasStackCall specs
  | .otherDecl => false

/-- List version over spec lists. -/
def specListHasStackCall : ASpecList → Bool
  | .nil => false
  | .cons (.valueSpec vs) rest => exprListHasStackCall vs || specListHasStackCall rest
  | .cons .otherSpec rest => specListHasStackCall rest

end

/-- Whether any top-level function declaration of a file contains a
`stack.FunctionID(arg)` call with exactly one argument. -/
def fileHasStackCall (file : List TopDecl) : Bool :=
  file.any (fun d =>
    match d with
    | .funcDecl _ body => stmtListHasStackCall body
    | .otherDecl => false)

/-- A file-tree entry seen by the walk of `main`: its slash-separated path
relative to the walk root, whether it is a directory, its byte contents, and
the result of `parser.ParseFile` on it (`none` models a parse error). -/
structure FSEntry where
  path : String
  isDir : Bool
  contents : List Nat
  parsed : Option (List TopDecl)

/-- A file write performed by the walk. -/
structure WriteOp where
  path : String
  contents : List Nat
deriving DecidableEq, Repr

/-- The `formatted` bytes `main` compares against `src`: the fixed bytes on
success, and the nil slice when `format` reported an error (the source
checks `bytes.Equal` before checking the error). -/
def formattedBytes (fixSource : List Nat → List FunctionIDArg → Except String (List Nat))
    (src : List Nat) (file : List TopDecl) : List Nat :=
  match format fixSource src file with
  | .ok f => f
  | .error _ => []

/-- The `filepath.Ext(path) == ".go"` test of the walk callback, expressed
on the path's character list: the last three characters are `".go"`. -/
def hasGoExt (p : String) : Bool :=
  decide (p.data.reverse.take 3 = ['o', 'g', '.'])

/-- Translated from the walk callback of `main` in `src/unnamed/part_000`:
directories and every path other than `"example.go"` are skipped; the one
remaining path is read, parsed and formatted, and written back only when the
formatted bytes differ from the original; a parse error, or a swallowed
format error on unchanged bytes, aborts the walk.  Reading and writing the
file are modelled as succeeding. -/
def processEntry (fixSource : List Nat → List FunctionIDArg → Except String (List Nat))
    (e : FSEntry) : Except String (Option WriteOp) :=
  if e.isDir then Except.ok none
  else if e.path ≠ "example.go" then Except.ok none
  else if hasGoExt e.path then
    match e.parsed with
    | none => Except.error "parse error"
    | some file =>
      match format fixSource e.contents file with
      | .ok f =>
        if e.contents ≠ f then Except.ok (some ⟨e.path, f⟩) else Except.ok none
      | .error er =>
        if e.contents ≠ [] then Except.ok (some ⟨e.path, []⟩) else Except.error er
  else Except.ok none

/-- Translated from `main` of `src/unnamed/part_000`: the walk visits the
tree entries in order, collecting the writes; an error aborts the rest of
the walk (after which `main` panics). -/
def mainWalk (fixSource : List Nat → List FunctionIDArg → Except String (List Nat)) :
    List FSEntry → List WriteOp × Bool
  | [] => ([], false)
  | e :: rest =>
    match processEntry fixSource e with
    | .error _ => ([], true)
    | .ok none => mainWalk fixSource rest
    | .ok (some w) =>
      let r := mainWalk fixSource rest
      (w :: r.1, r.2)


theorem errorsIs_refl (e : GoError) : errorsIs e e = true := by
  cases e <;> simp [errorsIs]

theorem asTransport_iff_mem (e : GoError) (r : TransportReason) :
    asTransport e = some r ↔ GoError.transportError r ∈ chain e := by
  induction e with
  | transportError r' => simp [asTransport, chain, eq_comm]
  | opError s => simp [asTransport, chain]
  | simple m => simp [asTransport, chain]
  | wrap m c ih => simp [asTransport, chain, ih]

theorem asOp_iff_mem (e : GoError) (s : StatusCode) :
    asOp e = some s ↔ GoError.opError s ∈ chain e := by
  induction e with
  | transportError r' => simp [asOp, chain]
  | opError s' => simp [asOp, chain, eq_comm]
  | simple m => simp [asOp, chain]
  | wrap m c ih => simp [asOp, chain, ih]

theorem classify_delete_iff (e : GoError) (idem : Bool) :
    classify e idem = RetryDecision.deleteSessionAndRetry ↔ SessionFatal e = true := by
  unfold classify SessionFatal
  cases hleaf : chainLeaf e with
  | transportError r => cases r <;> simp [classifyTransport]
  | opError s => cases s <;> cases idem <;> simp [classifyStatus]
  | simple m => simp
  | wrap m c => simp

theorem congestion_classify (e : GoError) (idem : Bool) (h : Congestion e = true) :
    classify e idem = RetryDecision.retryAfterBackoff BackoffKind.slow := by
  unfold Congestion at h
  unfold classify
  cases hleaf : chainLeaf e with
  | transportError r => rw [hleaf] at h; cases r <;> simp_all [classifyTransport]
  | opError s => rw [hleaf] at h; cases s <;> simp_all [classifyStatus]
  | simple m => rw [hleaf] at h; simp at h
  | wrap m c => rw [hleaf] at h; simp at h

theorem nonretryable_classify (e : GoError) (idem : Bool) (h : NonRetryable e = true) :
    classify e idem = RetryDecision.fail := by
  unfold NonRetryable at h
  unfold classify
  cases hleaf : chainLeaf e with
  | transportError r => rw [hleaf] at h; cases r <;> simp_all [classifyTransport]
  | opError s => rw [hleaf] at h; cases s <;> simp_all [classifyStatus]
  | simple m => simp
  | wrap m c => simp

/-- C6: for an ambiguous-outcome failure (undetermined result), the
classifier fails the operation when it is not declared idempotent and treats
it as retryable when it is. -/
theorem claim6_idempotent_gate (e : GoError) (h : Ambiguous e = true) :
    classify e false = RetryDecision.fail ∧
    classify e true ≠ RetryDecision.fail ∧
    classify e true = RetryDecision.retryAfterBackoff BackoffKind.fast := by
  have hleaf : chainLeaf e = GoError.opError StatusCode.undetermined := by
    unfold Ambiguous at h
    split at h
    · assumption
    · cases h
  unfold classify
  rw [hleaf]
  exact ⟨rfl, by decide, rfl⟩

theorem claim6_witness :
    Ambiguous (GoError.wrap "w" (GoError.opError StatusCode.undetermined)) = true ∧
    (classify (GoError.wrap "w" (GoError.opError StatusCode.undetermined)) false = RetryDecision.fail ∧
     classify (GoError.wrap "w" (GoError.opError StatusCode.undetermined)) true ≠ RetryDecision.fail ∧
     classify (GoError.wrap "w" (GoError.opError StatusCode.undetermined)) true =
       RetryDecision.retryAfterBackoff BackoffKind.fast) :=
  ⟨by decide, claim6_idempotent_gate _ (by decide)⟩

/-- C7: `IsTransportError` yields `(true, code, name)` exactly when a
transport failure occurs somewhere in the unwrap chain, with the code and
name taken from that failure's reason; likewise `IsOperationError` for
operation failures. -/
theorem claim7_introspection_iff (e : GoError) (c : Int) (n : String) :
    (IsTransportError (some e) = (true, c, n) ↔
      ∃ r, GoError.transportError r ∈ chain e ∧ c = r.code ∧ n = r.name) ∧
    (IsOperationError (some e) = (true, c, n) ↔
      ∃ s, GoError.opError s ∈ chain e ∧ c = s.code ∧ n = s.name) := by
  constructor
  · simp only [IsTransportError]
    cases h : asTransport e with
    | none =>
      simp only [← asTransport_iff_mem, h]
      constructor
      · intro hh; exact absurd hh (by simp)
      · rintro ⟨r, hr, -⟩; cases hr
    | some r =>
      simp only [← asTransport_iff_mem, h]
      constructor
      · intro hh
        refine ⟨r, rfl, ?_, ?_⟩ <;> { injection hh with h1 h2; injection h2 with h2 h3; simp_all }
      · rintro ⟨r', hr', hc, hn⟩
        injection hr' with hr'
        subst hr'; subst hc; subst hn; rfl
  · simp only [IsOperationError]
    cases h : asOp e with
    | none =>
      simp only [← asOp_iff_mem, h]
      constructor
      · intro hh; exact absurd hh (by simp)
      · rintro ⟨s, hs, -⟩; cases hs
    | some s =>
      simp only [← asOp_iff_mem, h]
      constructor
      · intro hh
        refine ⟨s, rfl, ?_, ?_⟩ <;> { injection hh with h1 h2; injection h2 with h2 h3; simp_all }
      · rintro ⟨s', hs', hc, hn⟩
        injection hs' with hs'
        subst hs'; subst hc; subst hn; rfl

/-- C8: `IsTransportError` returns the zero values `(false, 0, "")` for
every error whose unwrap chain contains no transport failure — even when the
chain does contain an operation failure — and respectively `IsOperationError`
returns them whenever the chain contains no operation failure; both also
return them for a nil error. -/
theorem claim8_zero_values (e : GoError) :
    ((¬ ∃ r, GoError.transportError r ∈ chain e) →
       IsTransportError (some e) = (false, 0, "")) ∧
    ((¬ ∃ s, GoError.opError s ∈ chain e) →
       IsOperationError (some e) = (false, 0, "")) ∧
    IsTransportError none = (false, 0, "") ∧
    IsOperationError none = (false, 0, "") := by
  refine ⟨?_, ?_, rfl, rfl⟩
  · intro ht
    simp only [IsTransportError]
    cases hat : asTransport e with
    | none => rfl
    | some r => exact absurd ⟨r, (asTransport_iff_mem e r).mp hat⟩ ht
  · intro ho
    simp only [IsOperationError]
    cases hao : asOp e with
    | none => rfl
    | some s => exact absurd ⟨s, (asOp_iff_mem e s).mp hao⟩ ho

theorem claim8_witness :
    IsTransportError (some (GoError.wrap "w" (GoError.opError StatusCode.overloaded)))
      = (false, 0, "") ∧
    IsOperationError (some (GoError.wrap "w" (GoError.transportError TransportReason.aborted)))
      = (false, 0, "") ∧
    IsTransportError none = (false, 0, "") ∧
    IsOperationError none = (false, 0, "") :=
  ⟨(claim8_zero_values (GoError.wrap "w" (GoError.opError StatusCode.overloaded))).1
     (by rintro ⟨r, hr⟩; simp [chain] at hr),
   (claim8_zero_values (GoError.wrap "w" (GoError.transportError TransportReason.aborted))).2.1
     (by rintro ⟨s, hs⟩; simp [chain] at hs),
   (claim8_zero_values (GoError.simple "x")).2.2⟩


theorem poolGet_mem {p : Pool} {s : Session} (h : poolGet p = some s) :
    s ∈ p ∧ s.closed = false := by
  unfold poolGet at h
  refine ⟨List.mem_of_find?_eq_some h, ?_⟩
  have := List.find?_some h
  simpa using this

theorem idClosed_poolClose_self (p : Pool) (i : Nat) :
    ∀ t ∈ poolClose p i, t.id = i → t.closed = true := by
  intro t ht hid
  unfold poolClose at ht
  obtain ⟨u, hu, rfl⟩ := List.mem_map.mp ht
  by_cases h : u.id = i
  · simp [h]
  · simp [h] at hid ⊢

theorem idClosed_poolClose_mono {p : Pool} {i : Nat} (j : Nat)
    (h : ∀ t ∈ p, t.id = i → t.closed = true) :
    ∀ t ∈ poolClose p j, t.id = i → t.closed = true := by
  intro t ht hid
  unfold poolClose at ht
  obtain ⟨u, hu, rfl⟩ := List.mem_map.mp ht
  by_cases hj : u.id = j
  · simp [hj]
  · simp [hj] at hid ⊢
    exact h u hu hid

theorem no_mention_of_closed (idem : Bool) (op : Nat → Nat → Option GoError)
    (ctxF : Nat → Bool) (i : Nat) :
    ∀ (fuel k : Nat) (pool : Pool),
      (∀ t ∈ pool, t.id = i → t.closed = true) →
      ∀ ev ∈ (retryBackoff idem op ctxF fuel k pool).events, ¬ eventMentions i ev := by
  intro fuel
  induction fuel with
  | zero =>
    intro k pool _ ev hev
    simp [retryBackoff] at hev
  | succ fuel ih =>
    intro k pool hcl ev hev
    rw [retryBackoff] at hev
    split at hev
    · simp at hev
    · rename_i s hget
      have hsmem := poolGet_mem hget
      have hsid : s.id ≠ i := by
        intro hid
        have := hcl s hsmem.1 hid
        rw [hsmem.2] at this
        cases this
      split at hev
      · simp at hev
        rcases hev with h | h <;> (subst h; simp [eventMentions, hsid])
      · rename_i e hop
        split at hev
        · simp at hev
          rcases hev with h | h <;> (subst h; simp [eventMentions, hsid])
        · simp at hev
          rcases hev with h | h | h
          · subst h; simp [eventMentions, hsid]
          · subst h; simp [eventMentions, hsid]
          · exact ih (k+1) (poolClose pool s.id) (idClosed_poolClose_mono s.id hcl) ev h
        · simp at hev
          rcases hev with h | h | h
          · subst h; simp [eventMentions, hsid]
          · subst h; simp [eventMentions, hsid]
          · exact ih (k+1) pool hcl ev h
        · split at hev
          · simp at hev
            rcases hev with h | h | h <;> (subst h; simp [eventMentions, hsid])
          · simp at hev
            rcases hev with h | h | h | h
            · subst h; simp [eventMentions, hsid]
            · subst h; simp [eventMentions, hsid]
            · subst h; simp [eventMentions, hsid]
            · exact ih (k+1) pool hcl ev h

theorem closedFlagSet_poolClose_mono {p : Pool} {i : Nat} (j : Nat)
    (h : closedFlagSet p i) : closedFlagSet (poolClose p j) i := by
  obtain ⟨t, ht, hid, hcl⟩ := h
  subst hid
  unfold closedFlagSet poolClose
  refine ⟨if t.id = j then { t with closed := true } else t,
    List.mem_map.mpr ⟨t, ht, rfl⟩, ?_, ?_⟩
  · by_cases hj : t.id = j <;> simp [hj]
  · by_cases hj : t.id = j <;> simp [hj, hcl]

theorem closedFlagSet_poolClose_self {p : Pool} {s : Session} (hs : s ∈ p) :
    closedFlagSet (poolClose p s.id) s.id := by
  unfold closedFlagSet poolClose
  exact ⟨{ s with closed := true }, List.mem_map.mpr ⟨s, hs, by simp⟩, rfl, rfl⟩

theorem closed_persists (idem : Bool) (op : Nat → Nat → Option GoError)
    (ctxF : Nat → Bool) (i : Nat) :
    ∀ (fuel k : Nat) (pool : Pool), closedFlagSet pool i →
      closedFlagSet (retryBackoff idem op ctxF fuel k pool).pool i := by
  intro fuel
  induction fuel with
  | zero => intro k pool h; simpa [retryBackoff] using h
  | succ fuel ih =>
    intro k pool h
    rw [retryBackoff]
    cases hget : poolGet pool with
    | none => simpa using h
    | some s =>
      dsimp only
      cases hop : op k s.id with
      | none => simpa using h
      | some e =>
        dsimp only
        cases hcls : classify e idem with
        | fail => simpa using h
        | deleteSessionAndRetry => exact ih (k+1) _ (closedFlagSet_poolClose_mono s.id h)
        | retryImmediate => exact ih (k+1) pool h
        | retryAfterBackoff bk =>
          dsimp only
          cases hctx : ctxF k with
          | true => simpa using h
          | false => simp only [Bool.false_eq_true, if_false]; exact ih (k+1) pool h

theorem use_attempt_lb (idem : Bool) (op : Nat → Nat → Option GoError)
    (ctxF : Nat → Bool) (i j : Nat) :
    ∀ (fuel k : Nat) (pool : Pool),
      Event.use i j ∈ (retryBackoff idem op ctxF fuel k pool).events → k ≤ j := by
  intro fuel
  induction fuel with
  | zero => intro k pool h; simp [retryBackoff] at h
  | succ fuel ih =>
    intro k pool hev
    rw [retryBackoff] at hev
    split at hev
    · simp at hev
    · rename_i s hget
      split at hev
      · simp at hev
        omega
      · rename_i e hop
        split at hev
        · simp at hev
          omega
        · simp at hev
          rcases hev with ⟨-, rfl⟩ | h
          · omega
          · have := ih (k+1) _ h; omega
        · simp at hev
          rcases hev with ⟨-, rfl⟩ | h
          · omega
          · have := ih (k+1) _ h; omega
        · split at hev
          · simp at hev
            omega
          · simp at hev
            rcases hev with ⟨-, rfl⟩ | h
            · omega
            · have := ih (k+1) _ h; omega

theorem use_fatal_shape (idem : Bool) (op : Nat → Nat → Option GoError)
    (ctxF : Nat → Bool) (i j : Nat) (hfat : FatalAt op j i) :
    ∀ (fuel k : Nat) (pool : Pool),
      Event.use i j ∈ (retryBackoff idem op ctxF fuel k pool).events →
      ∃ pre post,
        (retryBackoff idem op ctxF fuel k pool).events
          = pre ++ Event.use i j :: Event.close i :: post ∧
        (∀ ev ∈ post, ¬ eventMentions i ev) ∧
        closedFlagSet (retryBackoff idem op ctxF fuel k pool).pool i := by
  obtain ⟨efat, hopfat, hfatal⟩ := hfat
  intro fuel
  induction fuel with
  | zero => intro k pool hev; simp [retryBackoff] at hev
  | succ fuel ih =>
    intro k pool hev
    rw [retryBackoff] at hev ⊢
    cases hget : poolGet pool with
    | none => rw [hget] at hev; simp at hev
    | some s =>
      rw [hget] at hev
      dsimp only at hev ⊢
      have hsmem := poolGet_mem hget
      cases hop : op k s.id with
      | none =>
        rw [hop] at hev
        dsimp only at hev
        simp at hev
        obtain ⟨h1, h2⟩ := hev
        rw [h1, h2] at hopfat
        rw [hop] at hopfat
        cases hopfat
      | some e =>
        rw [hop] at hev
        dsimp only at hev ⊢
        cases hcls : classify e idem with
        | fail =>
          rw [hcls] at hev
          dsimp only at hev
          simp at hev
          obtain ⟨h1, h2⟩ := hev
          rw [h1, h2] at hopfat
          rw [hop] at hopfat
          injection hopfat with he
          subst he
          have hd := (classify_delete_iff e idem).mpr hfatal
          rw [hcls] at hd
          simp at hd
        | deleteSessionAndRetry =>
          rw [hcls] at hev
          dsimp only at hev ⊢
          simp at hev
          rcases hev with ⟨h1, h2⟩ | h
          · subst h1
            subst h2
            refine ⟨[], _, rfl, ?_, ?_⟩
            · exact no_mention_of_closed idem op ctxF s.id fuel _ _
                (idClosed_poolClose_self pool s.id)
            · exact closed_persists idem op ctxF s.id fuel _ _
                (closedFlagSet_poolClose_self hsmem.1)
          · obtain ⟨pre', post', heq, hpost, hpool⟩ := ih (k+1) (poolClose pool s.id) h
            refine ⟨Event.use s.id k :: Event.close s.id :: pre', post', ?_, hpost, hpool⟩
            rw [heq]
            simp
        | retryImmediate =>
          rw [hcls] at hev
          dsimp only at hev ⊢
          simp at hev
          rcases hev with ⟨h1, h2⟩ | h
          · rw [h1, h2] at hopfat
            rw [hop] at hopfat
            injection hopfat with he
            subst he
            have hd := (classify_delete_iff e idem).mpr hfatal
            rw [hcls] at hd
            simp at hd
          · obtain ⟨pre', post', heq, hpost, hpool⟩ := ih (k+1) pool h
            refine ⟨Event.use s.id k :: Event.put s.id :: pre', post', ?_, hpost, hpool⟩
            rw [heq]
            simp
        | retryAfterBackoff bk =>
          rw [hcls] at hev
          dsimp only at hev ⊢
          cases hctx : ctxF k with
          | true =>
            rw [hctx] at hev
            simp at hev
            obtain ⟨h1, h2⟩ := hev
            rw [h1, h2] at hopfat
            rw [hop] at hopfat
            injection hopfat with he
            subst he
            have hd := (classify_delete_iff e idem).mpr hfatal
            rw [hcls] at hd
            simp at hd
          | false =>
            rw [hctx] at hev
            simp only [Bool.false_eq_true, if_false] at hev ⊢
            simp at hev
            rcases hev with ⟨h1, h2⟩ | h
            · rw [h1, h2] at hopfat
              rw [hop] at hopfat
              injection hopfat with he
              subst he
              have hd := (classify_delete_iff e idem).mpr hfatal
              rw [hcls] at hd
              simp at hd
            · obtain ⟨pre', post', heq, hpost, hpool⟩ := ih (k+1) pool h
              refine ⟨Event.use s.id k :: Event.put s.id :: Event.backoff bk k :: pre',
                post', ?_, hpost, hpool⟩
              rw [heq]
              simp

theorem close_count_le_one (idem : Bool) (op : Nat → Nat → Option GoError)
    (ctxF : Nat → Bool) (i : Nat) :
    ∀ (fuel k : Nat) (pool : Pool),
      List.count (Event.close i) (retryBackoff idem op ctxF fuel k pool).events ≤ 1 := by
  intro fuel
  induction fuel with
  | zero => intro k pool; simp [retryBackoff]
  | succ fuel ih =>
    intro k pool
    rw [retryBackoff]
    cases hget : poolGet pool with
    | none => simp
    | some s =>
      dsimp only
      cases hop : op k s.id with
      | none => simp [List.count_cons]
      | some e =>
        dsimp only
        cases hcls : classify e idem with
        | fail => simp [List.count_cons]
        | deleteSessionAndRetry =>
          dsimp only
          by_cases hid : s.id = i
          · subst hid
            have hnot : Event.close s.id ∉
                (retryBackoff idem op ctxF fuel (k+1) (poolClose pool s.id)).events := by
              intro hmem
              exact no_mention_of_closed idem op ctxF s.id fuel (k+1) (poolClose pool s.id)
                (idClosed_poolClose_self pool s.id) (Event.close s.id) hmem rfl
            simp [List.count_cons, List.count_eq_zero.mpr hnot]
          · have hne : Event.close s.id ≠ Event.close i := by simp [hid]
            simp [List.count_cons, hne]
            exact ih (k+1) (poolClose pool s.id)
        | retryImmediate =>
          dsimp only
          simp [List.count_cons]
          exact ih (k+1) pool
        | retryAfterBackoff bk =>
          dsimp only
          cases hctx : ctxF k with
          | true => simp [List.count_cons]
          | false =>
            simp only [Bool.false_eq_true, if_false]
            simp [List.count_cons]
            exact ih (k+1) pool

theorem use_nonfatal_put (idem : Bool) (op : Nat → Nat → Option GoError)
    (ctxF : Nat → Bool) (i j : Nat) (hnf : ¬ FatalAt op j i) :
    ∀ (fuel k : Nat) (pool : Pool),
      Event.use i j ∈ (retryBackoff idem op ctxF fuel k pool).events →
      ∃ pre post,
        (retryBackoff idem op ctxF fuel k pool).events
          = pre ++ Event.use i j :: Event.put i :: post := by
  intro fuel
  induction fuel with
  | zero => intro k pool hev; simp [retryBackoff] at hev
  | succ fuel ih =>
    intro k pool hev
    rw [retryBackoff] at hev ⊢
    cases hget : poolGet pool with
    | none => rw [hget] at hev; simp at hev
    | some s =>
      rw [hget] at hev
      dsimp only at hev ⊢
      cases hop : op k s.id with
      | none =>
        rw [hop] at hev
        dsimp only at hev ⊢
        simp at hev
        obtain ⟨h1, h2⟩ := hev
        subst h1
        subst h2
        exact ⟨[], [], rfl⟩
      | some e =>
        rw [hop] at hev
        dsimp only at hev ⊢
        cases hcls : classify e idem with
        | fail =>
          rw [hcls] at hev
          dsimp only at hev
          simp at hev
          obtain ⟨h1, h2⟩ := hev
          subst h1
          subst h2
          exact ⟨[], [], rfl⟩
        | deleteSessionAndRetry =>
          rw [hcls] at hev
          dsimp only at hev ⊢
          simp at hev
          rcases hev with ⟨h1, h2⟩ | h
          · exfalso
            apply hnf
            refine ⟨e, ?_, ?_⟩
            · rw [h1, h2]; exact hop
            · exact (classify_delete_iff e idem).mp hcls
          · obtain ⟨pre', post', heq⟩ := ih (k+1) (poolClose pool s.id) h
            refine ⟨Event.use s.id k :: Event.close s.id :: pre', post', ?_⟩
            rw [heq]
            simp
        | retryImmediate =>
          rw [hcls] at hev
          dsimp only at hev ⊢
          simp at hev
          rcases hev with ⟨h1, h2⟩ | h
          · subst h1
            subst h2
            exact ⟨[], _, rfl⟩
          · obtain ⟨pre', post', heq⟩ := ih (k+1) pool h
            refine ⟨Event.use s.id k :: Event.put s.id :: pre', post', ?_⟩
            rw [heq]
            simp
        | retryAfterBackoff bk =>
          rw [hcls] at hev
          dsimp only at hev ⊢
          cases hctx : ctxF k with
          | true =>
            rw [hctx] at hev
            simp at hev
            obtain ⟨h1, h2⟩ := hev
            subst h1
            subst h2
            exact ⟨[], [Event.backoff bk _], rfl⟩
          | false =>
            rw [hctx] at hev
            simp only [Bool.false_eq_true, if_false] at hev ⊢
            simp at hev
            rcases hev with ⟨h1, h2⟩ | h
            · subst h1
              subst h2
              exact ⟨[], Event.backoff bk _ :: _, rfl⟩
            · obtain ⟨pre', post', heq⟩ := ih (k+1) pool h
              refine ⟨Event.use s.id k :: Event.put s.id :: Event.backoff bk k :: pre',
                post', ?_⟩
              rw [heq]
              simp

theorem ctxWait_shape (idem : Bool) (op : Nat → Nat → Option GoError)
    (ctxF : Nat → Bool) :
    ∀ (fuel k : Nat) (pool : Pool),
      (retryBackoff idem op ctxF fuel k pool).endKind = EndKind.ctxWait →
      ∃ pre i j e bk,
        (retryBackoff idem op ctxF fuel k pool).events
          = pre ++ [Event.use i j, Event.put i, Event.backoff bk j] ∧
        op j i = some e ∧
        (retryBackoff idem op ctxF fuel k pool).result = some e ∧
        classify e idem = RetryDecision.retryAfterBackoff bk ∧
        (∀ i' j', Event.use i' j' ∈ pre → j' < j) := by
  intro fuel
  induction fuel with
  | zero => intro k pool h; simp [retryBackoff] at h
  | succ fuel ih =>
    intro k pool h
    rw [retryBackoff] at h ⊢
    cases hget : poolGet pool with
    | none => rw [hget] at h; simp at h
    | some s =>
      rw [hget] at h
      dsimp only at h ⊢
      cases hop : op k s.id with
      | none => rw [hop] at h; simp at h
      | some e =>
        rw [hop] at h
        dsimp only at h ⊢
        cases hcls : classify e idem with
        | fail => rw [hcls] at h; simp at h
        | deleteSessionAndRetry =>
          rw [hcls] at h
          dsimp only at h ⊢
          obtain ⟨pre', i, j, e', bk, heq, hope, hres, hclse, hpre⟩ := ih (k+1) _ h
          have husej : Event.use i j ∈
              (retryBackoff idem op ctxF fuel (k+1) (poolClose pool s.id)).events := by
            rw [heq]; simp
          have hjlb := use_attempt_lb idem op ctxF i j fuel (k+1) _ husej
          refine ⟨Event.use s.id k :: Event.close s.id :: pre', i, j, e', bk, ?_, hope, hres,
            hclse, ?_⟩
          · rw [heq]; simp
          · intro i' j' hmem
            simp at hmem
            rcases hmem with ⟨-, rfl⟩ | hmem
            · omega
            · exact hpre i' j' hmem
        | retryImmediate =>
          rw [hcls] at h
          dsimp only at h ⊢
          obtain ⟨pre', i, j, e', bk, heq, hope, hres, hclse, hpre⟩ := ih (k+1) pool h
          have husej : Event.use i j ∈ (retryBackoff idem op ctxF fuel (k+1) pool).events := by
            rw [heq]; simp
          have hjlb := use_attempt_lb idem op ctxF i j fuel (k+1) pool husej
          refine ⟨Event.use s.id k :: Event.put s.id :: pre', i, j, e', bk, ?_, hope, hres,
            hclse, ?_⟩
          · rw [heq]; simp
          · intro i' j' hmem
            simp at hmem
            rcases hmem with ⟨-, rfl⟩ | hmem
            · omega
            · exact hpre i' j' hmem
        | retryAfterBackoff bk =>
          rw [hcls] at h
          dsimp only at h ⊢
          by_cases hctx : ctxF k = true
          case pos =>
            rw [if_pos hctx] at h ⊢
            exact ⟨[], s.id, k, e, bk, by simp, hop, rfl, hcls, by simp⟩
          case neg =>
            rw [if_neg hctx] at h ⊢
            obtain ⟨pre', i, j, e', bk', heq, hope, hres, hclse, hpre⟩ := ih (k+1) pool h
            have husej : Event.use i j ∈ (retryBackoff idem op ctxF fuel (k+1) pool).events := by
              rw [heq]; simp
            have hjlb := use_attempt_lb idem op ctxF i j fuel (k+1) pool husej
            refine ⟨Event.use s.id k :: Event.put s.id :: Event.backoff bk k :: pre',
              i, j, e', bk', ?_, hope, hres, hclse, ?_⟩
            · rw [heq]; simp
            · intro i' j' hmem
              simp at hmem
              rcases hmem with ⟨-, rfl⟩ | hmem
              · omega
              · exact hpre i' j' hmem

theorem use_congestion_backoff (idem : Bool) (op : Nat → Nat → Option GoError)
    (ctxF : Nat → Bool) (i j : Nat) (e : GoError)
    (hope : op j i = some e) (hcong : Congestion e = true) :
    ∀ (fuel k : Nat) (pool : Pool),
      Event.use i j ∈ (retryBackoff idem op ctxF fuel k pool).events →
      ∃ pre post,
        (retryBackoff idem op ctxF fuel k pool).events
          = pre ++ Event.use i j :: Event.put i ::
              Event.backoff BackoffKind.slow j :: post := by
  have hslow := congestion_classify e idem hcong
  intro fuel
  induction fuel with
  | zero => intro k pool hev; simp [retryBackoff] at hev
  | succ fuel ih =>
    intro k pool hev
    rw [retryBackoff] at hev ⊢
    cases hget : poolGet pool with
    | none => rw [hget] at hev; simp at hev
    | some s =>
      rw [hget] at hev
      dsimp only at hev ⊢
      cases hop : op k s.id with
      | none =>
        rw [hop] at hev
        dsimp only at hev
        simp at hev
        obtain ⟨h1, h2⟩ := hev
        rw [h1, h2] at hope
        rw [hop] at hope
        cases hope
      | some e' =>
        rw [hop] at hev
        dsimp only at hev ⊢
        cases hcls : classify e' idem with
        | fail =>
          rw [hcls] at hev
          dsimp only at hev
          simp at hev
          obtain ⟨h1, h2⟩ := hev
          rw [h1, h2] at hope
          rw [hop] at hope
          injection hope with he
          subst he
          rw [hcls] at hslow
          simp at hslow
        | deleteSessionAndRetry =>
          rw [hcls] at hev
          dsimp only at hev ⊢
          simp at hev
          rcases hev with ⟨h1, h2⟩ | h
          · rw [h1, h2] at hope
            rw [hop] at hope
            injection hope with he
            subst he
            rw [hcls] at hslow
            simp at hslow
          · obtain ⟨pre', post', heq⟩ := ih (k+1) (poolClose pool s.id) h
            refine ⟨Event.use s.id k :: Event.close s.id :: pre', post', ?_⟩
            rw [heq]
            simp
        | retryImmediate =>
          rw [hcls] at hev
          dsimp only at hev ⊢
          simp at hev
          rcases hev with ⟨h1, h2⟩ | h
          · rw [h1, h2] at hope
            rw [hop] at hope
            injection hope with he
            subst he
            rw [hcls] at hslow
            simp at hslow
          · obtain ⟨pre', post', heq⟩ := ih (k+1) pool h
            refine ⟨Event.use s.id k :: Event.put s.id :: pre', post', ?_⟩
            rw [heq]
            simp
        | retryAfterBackoff bk =>
          rw [hcls] at hev
          dsimp only at hev ⊢
          by_cases hctx : ctxF k = true
          case pos =>
            rw [if_pos hctx] at hev ⊢
            simp at hev
            obtain ⟨h1, h2⟩ := hev
            subst h1
            subst h2
            rw [hop] at hope
            injection hope with he
            subst he
            rw [hcls] at hslow
            injection hslow with hbk
            subst hbk
            exact ⟨[], [], rfl⟩
          case neg =>
            rw [if_neg hctx] at hev ⊢
            simp at hev
            rcases hev with ⟨h1, h2⟩ | h
            · subst h1
              subst h2
              rw [hop] at hope
              injection hope with he
              subst he
              rw [hcls] at hslow
              injection hslow with hbk
              subst hbk
              exact ⟨[], _, rfl⟩
            · obtain ⟨pre', post', heq⟩ := ih (k+1) pool h
              refine ⟨Event.use s.id k :: Event.put s.id :: Event.backoff bk k :: pre',
                post', ?_⟩
              rw [heq]
              simp

theorem poolClose_double (p : Pool) (i' : Nat) :
    poolClose (poolClose p i') i' = poolClose p i' := by
  induction p with
  | nil => rfl
  | cons t rest ihp =>
    unfold poolClose at ihp ⊢
    simp only [List.map_cons, List.cons.injEq]
    refine ⟨?_, ihp⟩
    by_cases h : t.id = i' <;> simp [h]

/-- C1: a session whose attempt fails with a SessionFatal-class error is
closed immediately and exactly once (the closed flag is set in the final
pool; closing is idempotent, double-close being a no-op), and after that
point it is never handed to another attempt, never `Put`, and never closed
again; a session whose attempt does not fail with a SessionFatal error is
returned via `Put` right after the attempt — and such a session may be
leased again later, as the appended concrete run shows. -/
theorem claim1_session_fatal_eviction
    (idem : Bool) (op : Nat → Nat → Option GoError) (ctxF : Nat → Bool)
    (fuel k : Nat) (pool : Pool) (i j : Nat)
    (huse : Event.use i j ∈ (retryBackoff idem op ctxF fuel k pool).events) :
    (FatalAt op j i →
       ∃ pre post,
         (retryBackoff idem op ctxF fuel k pool).events
           = pre ++ Event.use i j :: Event.close i :: post ∧
         List.count (Event.close i) (retryBackoff idem op ctxF fuel k pool).events = 1 ∧
         (∀ j', Event.use i j' ∉ post) ∧ Event.put i ∉ post ∧ Event.close i ∉ post ∧
         closedFlagSet (retryBackoff idem op ctxF fuel k pool).pool i) ∧
    (¬ FatalAt op j i →
       ∃ pre post,
         (retryBackoff idem op ctxF fuel k pool).events
           = pre ++ Event.use i j :: Event.put i :: post) ∧
    (∀ (p : Pool) (i' : Nat), poolClose (poolClose p i') i' = poolClose p i') ∧
    (retryBackoff false
        (fun a _ => if a = 0 then some (GoError.opError StatusCode.overloaded) else none)
        (fun _ => false) 5 0 [{ id := 1, closed := false }]).events
      = [Event.use 1 0, Event.put 1, Event.backoff BackoffKind.slow 0,
         Event.use 1 1, Event.put 1] := by
  refine ⟨?_, ?_, poolClose_double, by rfl⟩
  · intro hfat
    obtain ⟨pre, post, heq, hpost, hflag⟩ :=
      use_fatal_shape idem op ctxF i j hfat fuel k pool huse
    refine ⟨pre, post, heq, ?_, ?_, ?_, ?_, hflag⟩
    · have hle := close_count_le_one idem op ctxF i fuel k pool
      have hmem : Event.close i ∈ (retryBackoff idem op ctxF fuel k pool).events := by
        rw [heq]; simp
      have hge := List.count_pos_iff.mpr hmem
      omega
    · intro j' hmem
      exact hpost _ hmem rfl
    · intro hmem
      exact hpost _ hmem rfl
    · intro hmem
      exact hpost _ hmem rfl
  · intro hnf
    exact use_nonfatal_put idem op ctxF i j hnf fuel k pool huse

theorem claim1_witness :
    (Event.use 1 0 ∈ (retryBackoff false
        (fun _ id => if id = 1 then some (GoError.opError StatusCode.badSession) else none)
        (fun _ => false) 3 0 [{ id := 1, closed := false }, { id := 2, closed := false }]).events) ∧
    ((FatalAt (fun _ id => if id = 1 then some (GoError.opError StatusCode.badSession) else none) 0 1 →
       ∃ pre post,
         (retryBackoff false
            (fun _ id => if id = 1 then some (GoError.opError StatusCode.badSession) else none)
            (fun _ => false) 3 0 [{ id := 1, closed := false }, { id := 2, closed := false }]).events
           = pre ++ Event.use 1 0 :: Event.close 1 :: post ∧
         List.count (Event.close 1) (retryBackoff false
            (fun _ id => if id = 1 then some (GoError.opError StatusCode.badSession) else none)
            (fun _ => false) 3 0 [{ id := 1, closed := false }, { id := 2, closed := false }]).events = 1 ∧
         (∀ j', Event.use 1 j' ∉ post) ∧ Event.put 1 ∉ post ∧ Event.close 1 ∉ post ∧
         closedFlagSet (retryBackoff false
            (fun _ id => if id = 1 then some (GoError.opError StatusCode.badSession) else none)
            (fun _ => false) 3 0 [{ id := 1, closed := false }, { id := 2, closed := false }]).pool 1) ∧
    (¬ FatalAt (fun _ id => if id = 1 then some (GoError.opError StatusCode.badSession) else none) 0 1 →
       ∃ pre post,
         (retryBackoff false
            (fun _ id => if id = 1 then some (GoError.opError StatusCode.badSession) else none)
            (fun _ => false) 3 0 [{ id := 1, closed := false }, { id := 2, closed := false }]).events
           = pre ++ Event.use 1 0 :: Event.put 1 :: post) ∧
    (∀ (p : Pool) (i' : Nat), poolClose (poolClose p i') i' = poolClose p i') ∧
    (retryBackoff false
        (fun a _ => if a = 0 then some (GoError.opError StatusCode.overloaded) else none)
        (fun _ => false) 5 0 [{ id := 1, closed := false }]).events
      = [Event.use 1 0, Event.put 1, Event.backoff BackoffKind.slow 0,
         Event.use 1 1, Event.put 1]) :=
  ⟨by decide,
   claim1_session_fatal_eviction false
     (fun _ id => if id = 1 then some (GoError.opError StatusCode.badSession) else none)
     (fun _ => false) 3 0 [{ id := 1, closed := false }, { id := 2, closed := false }] 1 0
     (by decide)⟩

/-- C2: whenever a `Retry` run ends because the context fired while the loop
was in the Waiting (backoff) state, the returned error is the most recent
operation error — the error of the last attempt, matching it under
unwrap-aware equality — and is never the bare context-cancellation or
context-deadline sentinel. -/
theorem claim2_cancel_during_wait_returns_last_error
    (idem : Bool) (op : Nat → Nat → Option GoError) (ctxF : Nat → Bool)
    (fuel k : Nat) (pool : Pool)
    (h : (retryBackoff idem op ctxF fuel k pool).endKind = EndKind.ctxWait) :
    ∃ i j e,
      Event.use i j ∈ (retryBackoff idem op ctxF fuel k pool).events ∧
      (∀ i' j', Event.use i' j' ∈ (retryBackoff idem op ctxF fuel k pool).events → j' ≤ j) ∧
      op j i = some e ∧
      (retryBackoff idem op ctxF fuel k pool).result = some e ∧
      errorsIs e e = true ∧
      (retryBackoff idem op ctxF fuel k pool).result ≠ some contextCanceled ∧
      (retryBackoff idem op ctxF fuel k pool).result ≠ some contextDeadlineExceeded := by
  obtain ⟨pre, i, j, e, bk, heq, hope, hres, hcls, hpre⟩ :=
    ctxWait_shape idem op ctxF fuel k pool h
  have hnotctx : ∀ m : String, e ≠ GoError.simple m := by
    intro m hm
    rw [hm] at hcls
    rw [show classify (GoError.simple m) idem = RetryDecision.fail from rfl] at hcls
    simp at hcls
  refine ⟨i, j, e, ?_, ?_, hope, hres, errorsIs_refl e, ?_, ?_⟩
  · rw [heq]; simp
  · intro i' j' hmem
    rw [heq] at hmem
    simp at hmem
    rcases hmem with hm | ⟨h1, h2⟩
    · exact Nat.le_of_lt (hpre i' j' hm)
    · omega
  · intro hc
    rw [hres] at hc
    injection hc with he
    exact hnotctx _ he
  · intro hc
    rw [hres] at hc
    injection hc with he
    exact hnotctx _ he

theorem claim2_witness :
    ∃ i j e,
      Event.use i j ∈ (retryBackoff false
          (fun _ _ => some (GoError.opError StatusCode.overloaded)) (fun _ => true)
          1 0 [{ id := 1, closed := false }]).events ∧
      (∀ i' j', Event.use i' j' ∈ (retryBackoff false
          (fun _ _ => some (GoError.opError StatusCode.overloaded)) (fun _ => true)
          1 0 [{ id := 1, closed := false }]).events → j' ≤ j) ∧
      (some (GoError.opError StatusCode.overloaded) : Option GoError) = some e ∧
      (retryBackoff false
          (fun _ _ => some (GoError.opError StatusCode.overloaded)) (fun _ => true)
          1 0 [{ id := 1, closed := false }]).result = some e ∧
      errorsIs e e = true ∧
      (retryBackoff false
          (fun _ _ => some (GoError.opError StatusCode.overloaded)) (fun _ => true)
          1 0 [{ id := 1, closed := false }]).result ≠ some contextCanceled ∧
      (retryBackoff false
          (fun _ _ => some (GoError.opError StatusCode.overloaded)) (fun _ => true)
          1 0 [{ id := 1, closed := false }]).result ≠ some contextDeadlineExceeded :=
  claim2_cancel_during_wait_returns_last_error false
    (fun _ _ => some (GoError.opError StatusCode.overloaded)) (fun _ => true)
    1 0 [{ id := 1, closed := false }] (by decide)

/-- C3: whenever an attempt's operation fails with a Congestion-class error
(resource exhaustion, server overloaded, service unavailable), the loop puts
the session back and requests the slow Backoff Strategy's per-attempt signal
immediately after that attempt — hence before any later attempt, which can
only appear in the trace after the signal. -/
theorem claim3_congestion_invokes_slow_backoff
    (idem : Bool) (op : Nat → Nat → Option GoError) (ctxF : Nat → Bool)
    (fuel k : Nat) (pool : Pool) (i j : Nat) (e : GoError)
    (huse : Event.use i j ∈ (retryBackoff idem op ctxF fuel k pool).events)
    (hope : op j i = some e) (hcong : Congestion e = true) :
    ∃ pre post,
      (retryBackoff idem op ctxF fuel k pool).events
        = pre ++ Event.use i j :: Event.put i ::
            Event.backoff BackoffKind.slow j :: post :=
  use_congestion_backoff idem op ctxF i j e hope hcong fuel k pool huse

theorem claim3_witness :
    ∃ pre post,
      (retryBackoff false (fun _ _ => some (GoError.transportError TransportReason.resourceExhausted))
          (fun _ => true) 1 0 [{ id := 1, closed := false }]).events
        = pre ++ Event.use 1 0 :: Event.put 1 ::
            Event.backoff BackoffKind.slow 0 :: post :=
  claim3_congestion_invokes_slow_backoff false
    (fun _ _ => some (GoError.transportError TransportReason.resourceExhausted))
    (fun _ => true) 1 0 [{ id := 1, closed := false }] 1 0
    (GoError.transportError TransportReason.resourceExhausted)
    (by decide) rfl (by decide)

/-- C4: when the first attempt fails with a NonRetryable error — malformed
input, permission or authentication failure, a generic error, or any error
whose unwrap chain contains no transport or operation failure — `Retry`
returns right after that first attempt with exactly that error (matching the
original under unwrap-aware equality), and no backoff signal is ever
requested during the call. -/
theorem claim4_nonretryable_first_attempt
    (idem : Bool) (op : Nat → Nat → Option GoError) (ctxF : Nat → Bool)
    (fuel : Nat) (pool : Pool) (s : Session) (e : GoError)
    (hget : poolGet pool = some s) (hop : op 0 s.id = some e)
    (hnr : NonRetryable e = true) :
    retryBackoff idem op ctxF (fuel + 1) 0 pool
      = ⟨[Event.use s.id 0, Event.put s.id], some e, EndKind.failed, pool⟩ ∧
    errorsIs e e = true ∧
    (∀ bk a, Event.backoff bk a ∉ (retryBackoff idem op ctxF (fuel + 1) 0 pool).events) := by
  have hcl := nonretryable_classify e idem hnr
  have heq : retryBackoff idem op ctxF (fuel + 1) 0 pool
      = ⟨[Event.use s.id 0, Event.put s.id], some e, EndKind.failed, pool⟩ := by
    rw [retryBackoff, hget]
    dsimp only
    rw [hop]
    dsimp only
    rw [hcl]
  refine ⟨heq, errorsIs_refl e, ?_⟩
  intro bk a hmem
  rw [heq] at hmem
  simp at hmem

theorem claim4_witness :
    (retryBackoff false (fun _ _ => some (GoError.simple "whoa")) (fun _ => false)
        1 0 [{ id := 1, closed := false }]
      = ⟨[Event.use 1 0, Event.put 1], some (GoError.simple "whoa"),
          EndKind.failed, [{ id := 1, closed := false }]⟩) ∧
    errorsIs (GoError.simple "whoa") (GoError.simple "whoa") = true ∧
    (∀ bk a, Event.backoff bk a ∉ (retryBackoff false
        (fun _ _ => some (GoError.simple "whoa")) (fun _ => false)
        1 0 [{ id := 1, closed := false }]).events) :=
  claim4_nonretryable_first_attempt false (fun _ _ => some (GoError.simple "whoa"))
    (fun _ => false) 0 [{ id := 1, closed := false }] { id := 1, closed := false }
    (GoError.simple "whoa") rfl rfl (by decide)

theorem timedRetry_bounded (idem : Bool) (d : Nat) (opLat : Nat → Nat)
    (opErr : Nat → Option GoError) (backDur : BackoffKind → Nat → Nat)
    (hlat : ∀ a, 1 ≤ opLat a) :
    ∀ (fuel k now : Nat) (last : Option GoError), now ≤ d →
      (timedRetry idem d opLat opErr backDur fuel k now last).time ≤ d ∧
      (d - now < fuel →
        (timedRetry idem d opLat opErr backDur fuel k now last).fuelOut = false) := by
  intro fuel
  induction fuel with
  | zero =>
    intro k now last hnow
    refine ⟨hnow, ?_⟩
    intro hf
    omega
  | succ fuel ih =>
    intro k now last hnow
    rw [timedRetry]
    by_cases h1 : d ≤ now
    · rw [if_pos h1]
      exact ⟨hnow, fun _ => rfl⟩
    · rw [if_neg h1]
      by_cases h2 : d < now + opLat k
      · rw [if_pos h2]
        exact ⟨Nat.le_refl d, fun _ => rfl⟩
      · rw [if_neg h2]
        have hstep : now + 1 ≤ now + opLat k := by
          have := hlat k
          omega
        have ht1 : now + opLat k ≤ d := by omega
        cases hop : opErr k with
        | none => exact ⟨ht1, fun _ => rfl⟩
        | some e =>
          dsimp only
          cases hcls : classify e idem with
          | fail => exact ⟨ht1, fun _ => rfl⟩
          | deleteSessionAndRetry =>
            have := ih (k+1) (now + opLat k) (some e) ht1
            exact ⟨this.1, fun hf => this.2 (by omega)⟩
          | retryImmediate =>
            have := ih (k+1) (now + opLat k) (some e) ht1
            exact ⟨this.1, fun hf => this.2 (by omega)⟩
          | retryAfterBackoff bk =>
            dsimp only
            by_cases h3 : d < now + opLat k + backDur bk k
            · rw [if_pos h3]
              exact ⟨Nat.le_refl d, fun _ => rfl⟩
            · rw [if_neg h3]
              have ht2 : now + opLat k + backDur bk k ≤ d := by omega
              have := ih (k+1) (now + opLat k + backDur bk k) (some e) ht2
              exact ⟨this.1, fun hf => this.2 (by omega)⟩

/-- C5: against a context whose deadline is `d` ticks away, `Retry` — run on
any operation, including one that always fails with a retryable-with-backoff
error, with any per-attempt latencies (each at least one clock tick) and any
backoff durations — reaches a return (it does not exhaust `d + 1` iterations)
at a time no later than `d`, hence within `d` plus any fixed tolerance. -/
theorem claim5_deadline_bounds_retry (idem : Bool) (d : Nat) (opLat : Nat → Nat)
    (opErr : Nat → Option GoError) (backDur : BackoffKind → Nat → Nat)
    (tolerance : Nat) (hlat : ∀ a, 1 ≤ opLat a) :
    (timedRetry idem d opLat opErr backDur (d + 1) 0 0 none).fuelOut = false ∧
    (timedRetry idem d opLat opErr backDur (d + 1) 0 0 none).time ≤ d + tolerance := by
  have h := timedRetry_bounded idem d opLat opErr backDur hlat (d + 1) 0 0 none (Nat.zero_le d)
  exact ⟨h.2 (by omega), Nat.le_trans h.1 (Nat.le_add_right d tolerance)⟩

theorem claim5_witness :
    (timedRetry false 3 (fun _ => 1)
        (fun _ => some (GoError.opError StatusCode.overloaded)) (fun _ _ => 1)
        (3 + 1) 0 0 none).fuelOut = false ∧
    (timedRetry false 3 (fun _ => 1)
        (fun _ => some (GoError.opError StatusCode.overloaded)) (fun _ _ => 1)
        (3 + 1) 0 0 none).time ≤ 3 + 0 :=
  claim5_deadline_bounds_retry false 3 (fun _ => 1)
    (fun _ => some (GoError.opError StatusCode.overloaded)) (fun _ _ => 1) 0
    (fun _ => Nat.le_refl 1)

set_option maxHeartbeats 1000000

mutual

theorem exprCalls_sound : ∀ (e : AExpr), exprHasStackCall e = false →
    ∀ c ∈ getCallExpressionsFromExpr e, functionIDArgOf c = none
  | .ident _ _ _, _ => by intro c hc; simp [getCallExpressionsFromExpr] at hc
  | .basic _ _ _, _ => by intro c hc; simp [getCallExpressionsFromExpr] at hc
  | .selector _ _ x _, h => by
    simp only [exprHasStackCall] at h
    intro c hc
    simp only [getCallExpressionsFromExpr] at hc
    exact exprCalls_sound x h c hc
  | .indexE _ _ x, h => by
    simp only [exprHasStackCall] at h
    intro c hc
    simp only [getCallExpressionsFromExpr] at hc
    exact exprCalls_sound x h c hc
  | .star _ _ x, h => by
    simp only [exprHasStackCall] at h
    intro c hc
    simp only [getCallExpressionsFromExpr] at hc
    exact exprCalls_sound x h c hc
  | .unary _ _ x, h => by
    simp only [exprHasStackCall] at h
    intro c hc
    simp only [getCallExpressionsFromExpr] at hc
    exact exprCalls_sound x h c hc
  | .binary _ _ x y, h => by
    simp only [exprHasStackCall, Bool.or_eq_false_iff] at h
    intro c hc
    simp only [getCallExpressionsFromExpr, List.mem_append] at hc
    rcases hc with hc | hc
    · exact exprCalls_sound x h.1 c hc
    · exact exprCalls_sound y h.2 c hc
  | .call p q fn args, h => by
    simp only [exprHasStackCall, Bool.or_eq_false_iff] at h
    obtain ⟨⟨hnone, hfn⟩, hargs⟩ := h
    intro c hc
    simp only [getCallExpressionsFromExpr, List.mem_cons, List.mem_append] at hc
    rcases hc with rfl | hc | hc
    · simpa using hnone
    · exact exprCalls_sound fn hfn c hc
    · exact exprListCalls_sound args hargs c hc
  | .composite _ _ elts, h => by
    simp only [exprHasStackCall] at h
    intro c hc
    simp only [getCallExpressionsFromExpr] at hc
    exact exprListCalls_sound elts h c hc
  | .funcLit _ _ body, h => by
    simp only [exprHasStackCall] at h
    intro c hc
    simp only [getCallExpressionsFromExpr] at hc
    exact blockCalls_sound body h c hc

termination_by e => sizeOf e

theorem exprListCalls_sound : ∀ (es : AExprList), exprListHasStackCall es = false →
    ∀ c ∈ getCallsFromExprList es, functionIDArgOf c = none
  | .nil, _ => by intro c hc; simp [getCallsFromExprList] at hc
  | .cons e rest, h => by
    simp only [exprListHasStackCall, Bool.or_eq_false_iff] at h
    intro c hc
    simp only [getCallsFromExprList, List.mem_append] at hc
    rcases hc with hc | hc
    · exact exprCalls_sound e h.1 c hc
    · exact exprListCalls_sound rest h.2 c hc

termination_by es => sizeOf es

theorem stmtCalls_sound : ∀ (s : AStmt), stmtHasStackCall s = false →
    ∀ c ∈ getCallExpressionsFromStmt s, functionIDArgOf c = none
  | .exprStmt _, _ => by intro c hc; simp [getCallExpressionsFromStmt] at hc
  | .returnStmt _, _ => by intro c hc; simp [getCallExpressionsFromStmt] at hc
  | .assignStmt _ _, _ => by intro c hc; simp [getCallExpressionsFromStmt] at hc
  | .caseClause _, _ => by intro c hc; simp [getCallExpressionsFromStmt] at hc
  | .otherStmt, _ => by intro c hc; simp [getCallExpressionsFromStmt] at hc
  | .ifStmt body, h => by
    simp only [stmtHasStackCall] at h
    intro c hc
    simp only [getCallExpressionsFromStmt] at hc
    exact blockCalls_sound body h c hc
  | .switchStmt body, h => by
    simp only [stmtHasStackCall] at h
    intro c hc
    simp only [getCallExpressionsFromStmt] at hc
    exact blockCalls_sound body h c hc
  | .typeSwitchStmt body, h => by
    simp only [stmtHasStackCall] at h
    intro c hc
    simp only [getCallExpressionsFromStmt] at hc
    exact blockCalls_sound body h c hc
  | .selectStmt body, h => by
    simp only [stmtHasStackCall] at h
    intro c hc
    simp only [getCallExpressionsFromStmt] at hc
    exact blockCalls_sound body h c hc
  | .forStmt body, h => by
    simp only [stmtHasStackCall] at h
    intro c hc
    simp only [getCallExpressionsFromStmt] at hc
    exact blockCalls_sound body h c hc
  | .rangeStmt body, h => by
    simp only [stmtHasStackCall] at h
    intro c hc
    simp only [getCallExpressionsFromStmt] at hc
    exact blockCalls_sound body h c hc
  | .declStmt d, h => by
    simp only [stmtHasStackCall] at h
    intro c hc
    simp only [getCallExpressionsFromStmt] at hc
    exact declCalls_sound d h c hc

termination_by s => sizeOf s

theorem blockCalls_sound : ∀ (b : AStmtList), stmtListHasStackCall b = false →
    ∀ c ∈ getListOfCallExpressionsFromBlockStmt b, functionIDArgOf c = none
  | .nil, _ => by intro c hc; simp [getListOfCallExpressionsFromBlockStmt] at hc
  | .cons (.exprStmt x) rest, h => by
    have h' : (exprHasStackCall x || stmtListHasStackCall rest) = false := h
    simp only [Bool.or_eq_false_iff] at h'
    intro c hc
    have hc' : c ∈ getCallExpressionsFromExpr x
        ++ getListOfCallExpressionsFromBlockStmt rest := hc
    rcases List.mem_append.mp hc' with hm | hm
    · exact exprCalls_sound x h'.1 c hm
    · exact blockCalls_sound rest h'.2 c hm
  | .cons (.returnStmt rs) rest, h => by
    have h' : (exprListHasStackCall rs || stmtListHasStackCall rest) = false := h
    simp only [Bool.or_eq_false_iff] at h'
    intro c hc
    have hc' : c ∈ getCallsFromExprList rs
        ++ getListOfCallExpressionsFromBlockStmt rest := hc
    rcases List.mem_append.mp hc' with hm | hm
    · exact exprListCalls_sound rs h'.1 c hm
    · exact blockCalls_sound rest h'.2 c hm
  | .cons (.assignStmt lhs rhs) rest, h => by
    have h' : ((exprListHasStackCall lhs || exprListHasStackCall rhs)
        || stmtListHasStackCall rest) = false := h
    simp only [Bool.or_eq_false_iff] at h'
    intro c hc
    have hc' : c ∈ getCallsFromExprList rhs
        ++ getListOfCallExpressionsFromBlockStmt rest := hc
    rcases List.mem_append.mp hc' with hm | hm
    · exact exprListCalls_sound rhs h'.1.2 c hm
    · exact blockCalls_sound rest h'.2 c hm
  | .cons (.ifStmt body) rest, h => by
    have h' : (stmtHasStackCall (AStmt.ifStmt body) || stmtListHasStackCall rest) = false := h
    simp only [Bool.or_eq_false_iff] at h'
    intro c hc
    have hc' : c ∈ getCallExpressionsFromStmt (AStmt.ifStmt body)
        ++ getListOfCallExpressionsFromBlockStmt rest := hc
    rcases List.mem_append.mp hc' with hm | hm
    · exact stmtCalls_sound (AStmt.ifStmt body) h'.1 c hm
    · exact blockCalls_sound rest h'.2 c hm
  | .cons (.switchStmt body) rest, h => by
    have h' : (stmtHasStackCall (AStmt.switchStmt body) || stmtListHasStackCall rest) = false := h
    simp only [Bool.or_eq_false_iff] at h'
    intro c hc
    have hc' : c ∈ getCallExpressionsFromStmt (AStmt.switchStmt body)
        ++ getListOfCallExpressionsFromBlockStmt rest := hc
    rcases List.mem_append.mp hc' with hm | hm
    · exact stmtCalls_sound (AStmt.switchStmt body) h'.1 c hm
    · exact blockCalls_sound rest h'.2 c hm
  | .cons (.typeSwitchStmt body) rest, h => by
    have h' : (stmtHasStackCall (AStmt.typeSwitchStmt body) || stmtListHasStackCall rest) = false := h
    simp only [Bool.or_eq_false_iff] at h'
    intro c hc
    have hc' : c ∈ getCallExpressionsFromStmt (AStmt.typeSwitchStmt body)
        ++ getListOfCallExpressionsFromBlockStmt rest := hc
    rcases List.mem_append.mp hc' with hm | hm
    · exact stmtCalls_sound (AStmt.typeSwitchStmt body) h'.1 c hm
    · exact blockCalls_sound rest h'.2 c hm
  | .cons (.selectStmt body) rest, h => by
    have h' : (stmtHasStackCall (AStmt.selectStmt body) || stmtListHasStackCall rest) = false := h
    simp only [Bool.or_eq_false_iff] at h'
    intro c hc
    have hc' : c ∈ getCallExpressionsFromStmt (AStmt.selectStmt body)
        ++ getListOfCallExpressionsFromBlockStmt rest := hc
    rcases List.mem_append.mp hc' with hm | hm
    · exact stmtCalls_sound (AStmt.selectStmt body) h'.1 c hm
    · exact blockCalls_sound rest h'.2 c hm
  | .cons (.forStmt body) rest, h => by
    have h' : (stmtHasStackCall (AStmt.forStmt body) || stmtListHasStackCall rest) = false := h
    simp only [Bool.or_eq_false_iff] at h'
    intro c hc
    have hc' : c ∈ getCallExpressionsFromStmt (AStmt.forStmt body)
        ++ getListOfCallExpressionsFromBlockStmt rest := hc
    rcases List.mem_append.mp hc' with hm | hm
    · exact stmtCalls_sound (AStmt.forStmt body) h'.1 c hm
    · exact blockCalls_sound rest h'.2 c hm
  | .cons (.rangeStmt body) rest, h => by
    have h' : (stmtHasStackCall (AStmt.rangeStmt body) || stmtListHasStackCall rest) = false := h
    simp only [Bool.or_eq_false_iff] at h'
    intro c hc
    have hc' : c ∈ getCallExpressionsFromStmt (AStmt.rangeStmt body)
        ++ getListOfCallExpressionsFromBlockStmt rest := hc
    rcases List.mem_append.mp hc' with hm | hm
    · exact stmtCalls_sound (AStmt.rangeStmt body) h'.1 c hm
    · exact blockCalls_sound rest h'.2 c hm
  | .cons (.declStmt d) rest, h => by
    have h' : (stmtHasStackCall (AStmt.declStmt d) || stmtListHasStackCall rest) = false := h
    simp only [Bool.or_eq_false_iff] at h'
    intro c hc
    have hc' : c ∈ getCallExpressionsFromStmt (AStmt.declStmt d)
        ++ getListOfCallExpressionsFromBlockStmt rest := hc
    rcases List.mem_append.mp hc' with hm | hm
    · exact stmtCalls_sound (AStmt.declStmt d) h'.1 c hm
    · exact blockCalls_sound rest h'.2 c hm
  | .cons (.caseClause body) rest, h => by
    have h' : (stmtHasStackCall (AStmt.caseClause body) || stmtListHasStackCall rest) = false := h
    simp only [Bool.or_eq_false_iff] at h'
    intro c hc
    have hc' : c ∈ getCallExpressionsFromStmt (AStmt.caseClause body)
        ++ getListOfCallExpressionsFromBlockStmt rest := hc
    rcases List.mem_append.mp hc' with hm | hm
    · exact stmtCalls_sound (AStmt.caseClause body) h'.1 c hm
    · exact blockCalls_sound rest h'.2 c hm
  | .cons .otherStmt rest, h => by
    have h' : (stmtHasStackCall AStmt.otherStmt || stmtListHasStackCall rest) = false := h
    simp only [Bool.or_eq_false_iff] at h'
    intro c hc
    have hc' : c ∈ getCallExpressionsFromStmt AStmt.otherStmt
        ++ getListOfCallExpressionsFromBlockStmt rest := hc
    rcases List.mem_append.mp hc' with hm | hm
    · exact stmtCalls_sound AStmt.otherStmt h'.1 c hm
    · exact blockCalls_sound rest h'.2 c hm
termination_by b => sizeOf b

theorem declCalls_sound : ∀ (d : AGenDecl), declHasStackCall d = false →
    ∀ c ∈ getCallsFromDeclStmt d, functionIDArgOf c = none
  | .otherDecl, _ => by intro c hc; simp [getCallsFromDeclStmt] at hc
  | .genDecl specs, h => by
    simp only [declHasStackCall] at h
    intro c hc
    simp only [getCallsFromDeclStmt] at hc
    exact specListCalls_sound specs h c hc

termination_by d => sizeOf d

theorem specListCalls_sound : ∀ (sl : ASpecList), specListHasStackCall sl = false →
    ∀ c ∈ getCallsFromSpecList sl, functionIDArgOf c = none
  | .nil, _ => by intro c hc; simp [getCallsFromSpecList] at hc
  | .cons (.valueSpec vs) rest, h => by
    simp only [specListHasStackCall, Bool.or_eq_false_iff] at h
    intro c hc
    simp only [getCallsFromSpecList, List.mem_append] at hc
    rcases hc with hc | hc
    · exact exprListCalls_sound vs h.1 c hc
    · exact specListCalls_sound rest h.2 c hc
  | .cons .otherSpec rest, h => by
    simp only [specListHasStackCall] at h
    intro c hc
    simp only [getCallsFromSpecList] at hc
    exact specListCalls_sound rest h c hc
termination_by sl => sizeOf sl

end

theorem collect_empty (file : List TopDecl) (h : fileHasStackCall file = false) :
    collectFunctionIDArgs file = [] := by
  induction file with
  | nil => rfl
  | cons d rest ihf =>
    simp only [fileHasStackCall, List.any_cons, Bool.or_eq_false_iff] at h
    cases d with
    | funcDecl n body =>
      have hbody : stmtListHasStackCall body = false := h.1
      have hrest : fileHasStackCall rest = false := h.2
      simp only [collectFunctionIDArgs]
      rw [ihf hrest, List.append_nil]
      exact List.filterMap_eq_nil_iff.mpr (blockCalls_sound body hbody)
    | otherDecl =>
      simp only [collectFunctionIDArgs]
      exact ihf h.2

/-- C9: if no top-level function declaration of the parsed file contains a
call of the form `stack.FunctionID(arg)` with exactly one argument, then
`format` returns the input byte slice unchanged with a nil error, whatever
`utils.FixSource` would have done. -/
theorem claim9_format_returns_input_unchanged
    (fixSource : List Nat → List FunctionIDArg → Except String (List Nat))
    (src : List Nat) (file : List TopDecl)
    (h : fileHasStackCall file = false) :
    format fixSource src file = Except.ok src := by
  unfold format
  rw [collect_empty file h]
  simp

theorem claim9_witness :
    format (fun _ _ => Except.error "boom") [7, 8, 9]
      [TopDecl.funcDecl "f"
        (AStmtList.cons
          (AStmt.exprStmt (AExpr.call 0 9 (AExpr.ident 0 3 "foo") AExprList.nil))
          AStmtList.nil)]
      = Except.ok [7, 8, 9] :=
  claim9_format_returns_input_unchanged (fun _ _ => Except.error "boom") [7, 8, 9]
    [TopDecl.funcDecl "f"
      (AStmtList.cons
        (AStmt.exprStmt (AExpr.call 0 9 (AExpr.ident 0 3 "foo") AExprList.nil))
        AStmtList.nil)]
    (by rfl)

theorem processEntry_some_inv
    (fixSource : List Nat → List FunctionIDArg → Except String (List Nat))
    (ent : FSEntry) (w0 : WriteOp)
    (h : processEntry fixSource ent = Except.ok (some w0)) :
    ent.path = "example.go" ∧ ent.isDir = false ∧
    ∃ file, ent.parsed = some file ∧
      w0 = ⟨ent.path, formattedBytes fixSource ent.contents file⟩ ∧
      formattedBytes fixSource ent.contents file ≠ ent.contents := by
  unfold processEntry at h
  split at h
  · simp at h
  · rename_i hdir
    split at h
    · simp at h
    · rename_i hpath
      rw [not_not] at hpath
      split at h
      · split at h
        · simp at h
        · rename_i file hparsed
          split at h
          · rename_i f hfmt
            split at h
            · rename_i hne
              simp only [Except.ok.injEq, Option.some.injEq] at h
              refine ⟨hpath, Bool.not_eq_true _ ▸ hdir, file, hparsed, ?_, ?_⟩
              · rw [← h]
                unfold formattedBytes
                rw [hfmt]
              · unfold formattedBytes
                rw [hfmt]
                exact fun hx => hne hx.symm
            · simp at h
          · rename_i er hfmt
            split at h
            · rename_i hne
              simp only [Except.ok.injEq, Option.some.injEq] at h
              refine ⟨hpath, Bool.not_eq_true _ ▸ hdir, file, hparsed, ?_, ?_⟩
              · rw [← h]
                unfold formattedBytes
                rw [hfmt]
              · unfold formattedBytes
                rw [hfmt]
                exact fun hx => hne hx.symm
            · simp at h
      · simp at h

theorem processEntry_other_path
    (fixSource : List Nat → List FunctionIDArg → Except String (List Nat))
    (ent : FSEntry) (hp : ent.path ≠ "example.go") :
    processEntry fixSource ent = Except.ok none := by
  unfold processEntry
  by_cases hdir : ent.isDir = true
  · rw [if_pos hdir]
  · rw [if_neg hdir, if_pos hp]

theorem no_example_no_writes
    (fixSource : List Nat → List FunctionIDArg → Except String (List Nat)) :
    ∀ (entries : List FSEntry),
      (∀ e ∈ entries, e.path ≠ "example.go") →
      (mainWalk fixSource entries).1 = [] := by
  intro entries
  induction entries with
  | nil => intro _; rfl
  | cons ent rest ihe =>
    intro h
    rw [mainWalk]
    rw [processEntry_other_path fixSource ent (h ent (List.mem_cons_self ent rest))]
    exact ihe fun e he => h e (List.mem_cons_of_mem ent he)

/-- C10: every write performed by the directory walk of `main` targets the
path `"example.go"` and stores the formatted bytes of that entry, and a
write happens only when those formatted bytes differ from the entry's
original contents; moreover, as long as the walked paths are distinct (as in
a real file tree), at most one write happens in total — every other file is
left unmodified. -/
theorem claim10_walk_writes_only_example
    (fixSource : List Nat → List FunctionIDArg → Except String (List Nat))
    (entries : List FSEntry) (w : WriteOp)
    (hw : w ∈ (mainWalk fixSource entries).1) :
    (w.path = "example.go" ∧
     ∃ e ∈ entries, e.path = "example.go" ∧ e.isDir = false ∧
       ∃ file, e.parsed = some file ∧
         w.contents = formattedBytes fixSource e.contents file ∧
         w.contents ≠ e.contents) ∧
    ((entries.map FSEntry.path).Nodup → (mainWalk fixSource entries).1.length ≤ 1) := by
  constructor
  · induction entries with
    | nil => simp [mainWalk] at hw
    | cons ent rest ihe =>
      rw [mainWalk] at hw
      cases hpe : processEntry fixSource ent with
      | error er => rw [hpe] at hw; simp at hw
      | ok wo =>
        rw [hpe] at hw
        cases wo with
        | none =>
          obtain ⟨hwp, e, he, hrest⟩ := ihe hw
          exact ⟨hwp, e, List.mem_cons_of_mem ent he, hrest⟩
        | some w0 =>
          simp only [List.mem_cons] at hw
          rcases hw with hww | hw
          · obtain ⟨hp, hdir, file, hparsed, hw0, hne⟩ :=
              processEntry_some_inv fixSource ent w0 hpe
            rw [hww]
            refine ⟨by rw [hw0, hp], ent, List.mem_cons_self ent rest, hp, hdir, file,
              hparsed, ?_, ?_⟩
            · rw [hw0]
            · rw [hw0]
              exact hne
          · obtain ⟨hwp, e, he, hrest⟩ := ihe hw
            exact ⟨hwp, e, List.mem_cons_of_mem ent he, hrest⟩
  · induction entries with
    | nil => intro _; simp [mainWalk]
    | cons ent rest ihe =>
      intro hnd
      rw [List.map_cons, List.nodup_cons] at hnd
      rw [mainWalk]
      cases hpe : processEntry fixSource ent with
      | error er => simp
      | ok wo =>
        cases wo with
        | none =>
          rw [mainWalk] at hw
          rw [hpe] at hw
          exact ihe hw hnd.2
        | some w0 =>
          obtain ⟨hp, -, -⟩ := processEntry_some_inv fixSource ent w0 hpe
          have hrestnil : (mainWalk fixSource rest).1 = [] := by
            apply no_example_no_writes
            intro e he hep
            apply hnd.1
            rw [hp, ← hep]
            exact List.mem_map_of_mem FSEntry.path he
          simp [hrestnil]

theorem claim10_witness :
    (WriteOp.mk "example.go" [1, 2] ∈ (mainWalk (fun _ _ => Except.ok [1, 2])
      [⟨"example.go", false, [9],
        some [TopDecl.funcDecl "f"
          (AStmtList.cons
            (AStmt.exprStmt (AExpr.call 0 20
              (AExpr.selector 0 16 (AExpr.ident 0 5 "stack") "FunctionID")
              (AExprList.cons (AExpr.ident 17 19 "fn") AExprList.nil)))
            AStmtList.nil)]⟩]).1) ∧
    (((WriteOp.mk "example.go" [1, 2]).path = "example.go" ∧
      ∃ e ∈ [(⟨"example.go", false, [9],
          some [TopDecl.funcDecl "f"
            (AStmtList.cons
              (AStmt.exprStmt (AExpr.call 0 20
                (AExpr.selector 0 16 (AExpr.ident 0 5 "stack") "FunctionID")
                (AExprList.cons (AExpr.ident 17 19 "fn") AExprList.nil)))
              AStmtList.nil)]⟩ : FSEntry)],
        e.path = "example.go" ∧ e.isDir = false ∧
        ∃ file, e.parsed = some file ∧
          (WriteOp.mk "example.go" [1, 2]).contents
            = formattedBytes (fun _ _ => Except.ok [1, 2]) e.contents file ∧
          (WriteOp.mk "example.go" [1, 2]).contents ≠ e.contents) ∧
     (([(⟨"example.go", false, [9],
          some [TopDecl.funcDecl "f"
            (AStmtList.cons
              (AStmt.exprStmt (AExpr.call 0 20
                (AExpr.selector 0 16 (AExpr.ident 0 5 "stack") "FunctionID")
                (AExprList.cons (AExpr.ident 17 19 "fn") AExprList.nil)))
              AStmtList.nil)]⟩ : FSEntry)].map FSEntry.path).Nodup →
        (mainWalk (fun _ _ => Except.ok [1, 2])
          [⟨"example.go", false, [9],
            some [TopDecl.funcDecl "f"
              (AStmtList.cons
                (AStmt.exprStmt (AExpr.call 0 20
                  (AExpr.selector 0 16 (AExpr.ident 0 5 "stack") "FunctionID")
                  (AExprList.cons (AExpr.ident 17 19 "fn") AExprList.nil)))
                AStmtList.nil)]⟩]).1.length ≤ 1)) :=
  ⟨by decide,
   claim10_walk_writes_only_example (fun _ _ => Except.ok [1, 2])
     [⟨"example.go", false, [9],
       some [TopDecl.funcDecl "f"
         (AStmtList.cons
           (AStmt.exprStmt (AExpr.call 0 20
             (AExpr.selector 0 16 (AExpr.ident 0 5 "stack") "FunctionID")
             (AExprList.cons (AExpr.ident 17 19 "fn") AExprList.nil)))
           AStmtList.nil)]⟩]
     (WriteOp.mk "example.go" [1, 2]) (by decide)⟩

end YdbSdk
